import Mathlib

/-!
Verification development for the libsync manifest synthesis and
path-conversion engine.

The JavaScript source (`src/utils/package.js`, `src/commands/build.js`,
`src/utils/patterns.js`, `src/schemas/commands-config.js`) is shallowly
embedded here.  Paths and file contents are byte strings, modelled as
`List Char`.  JavaScript objects (whose string keys keep insertion order,
where assignment to an existing key keeps its position, and where
`delete` removes the key) are modelled as ordered association lists.
Filesystem probes (`existsSync`) are an environment function
`Str → Bool`; directory listings (`readdirSync`) are a partial function
from paths to entry-name lists.  The glob/regex matcher
(`matchesAnyPattern`, an external collaborator with a fixed contract) is
abstracted as a boolean predicate supplied by the environment.
-/

namespace Libsync

/-- Byte strings: paths and file contents. -/
abbrev Str := List Char

/-- Embed a Lean string literal as a byte string. -/
def cs (s : String) : Str := s.data

/-- JS template `"a" + "b"` etc. is plain list append. -/
instance : DecidableEq Str := inferInstance

/-- JS `String.prototype.startsWith`. -/
def strStartsWith (s pre : Str) : Bool := pre.isPrefixOf s

/-- JS `String.prototype.endsWith`. -/
def strEndsWith (s suf : Str) : Bool := suf.isSuffixOf s

/-- Drop a known prefix (used for the anchored prefix-stripping regexes). -/
def strDropPrefix (s pre : Str) : Str := s.drop pre.length

/-- Drop a known suffix. -/
def strDropSuffix (s suf : Str) : Str := s.take (s.length - suf.length)

/-- Trailing-`/` trimming used by `path.join` normalization. -/
def trimTrailingSlashes (s : Str) : Str :=
  (s.reverse.dropWhile (fun c => c = '/')).reverse

/-- Leading-`/` trimming used by `path.join` normalization. -/
def trimLeadingSlashes (s : Str) : Str := s.dropWhile (fun c => c = '/')

/-- Node's `path.join(a, b)` for the path shapes this system builds:
segments are joined with `/` and duplicate slashes at the seam are
collapsed.  (No `.`/`..` resolution is needed by any call site.) -/
def pjoin (a b : Str) : Str :=
  if a = [] then b
  else if b = [] then a
  else trimTrailingSlashes a ++ cs "/" ++ trimLeadingSlashes b

/-- `path.join(a, b, c)`. -/
def pjoin3 (a b c : Str) : Str := pjoin (pjoin a b) c

/-- `filePath.replace(/\\/g, '/')` — `normalizePath` in package.js. -/
def normalizePath (s : Str) : Str :=
  s.map (fun c => if c = '\\' then '/' else c)

/-- The regex `/\.[^.]+$/` splits `s` into a stem and a last-dot
extension, when the characters after the last dot are nonempty. -/
def lastExtSplit (s : Str) : Option (Str × Str) :=
  let revAfter := s.reverse.takeWhile (fun c => c ≠ '.')
  if revAfter.length = 0 ∨ revAfter.length = s.length then none
  else some (s.take (s.length - revAfter.length - 1),
             '.' :: revAfter.reverse)

/-- `removeExt`: `path.replace(/\.[^.]+$/, '')` (package.js line 74). -/
def removeExt (s : Str) : Str :=
  match lastExtSplit s with
  | some (stem, _) => stem
  | none => s

/-- `path.match(/\.[^.]+$/)?.[0] || '.js'` — a file's original extension
with the `.js` fallback, as used by `getExports`. -/
def extOf (s : Str) : Str :=
  match lastExtSplit s with
  | some (_, ext) => ext
  | none => cs ".js"

/-- `ensureRelativePath` (package.js line 845): normalize a path to begin
with `./`. -/
def ensureRelativePath (p : Str) : Str :=
  if p = [] then p
  else if strStartsWith p (cs "./") then p
  else if strStartsWith p (cs "/") then '.' :: p
  else cs "./" ++ p

/-- The anchored regex `^\.?/?DIR/` used to strip a directory prefix in
the path converters: regex backtracking tries the alternatives
`./DIR/`, `.DIR/`, `/DIR/`, `DIR/` in that order and strips the first
match. -/
def stripDirPrefix (dir s : Str) : Str :=
  if strStartsWith s (cs "./" ++ dir ++ cs "/") then
    strDropPrefix s (cs "./" ++ dir ++ cs "/")
  else if strStartsWith s ('.' :: dir ++ cs "/") then
    strDropPrefix s ('.' :: dir ++ cs "/")
  else if strStartsWith s ('/' :: dir ++ cs "/") then
    strDropPrefix s ('/' :: dir ++ cs "/")
  else if strStartsWith s (dir ++ cs "/") then
    strDropPrefix s (dir ++ cs "/")
  else s

/-- A suffix-rewriting regex such as `/\.(m?[jt]s|[cm][jt]s)$/`: if the
string ends with one of the candidate suffixes, that suffix is replaced
(the candidates are pairwise non-overlapping at a common end, so at most
one applies). -/
def replaceSuffixAny (cands : List Str) (repl s : Str) : Str :=
  match cands.find? (fun c => strEndsWith s c) with
  | some c => strDropSuffix s c ++ repl
  | none => s

/-- Suffix set of `/\.(m?[jt]s|[cm][jt]s)$/` (CJS rewrite). -/
def cjsRewriteExts : List Str :=
  [cs ".js", cs ".ts", cs ".mjs", cs ".mts", cs ".cjs", cs ".cts"]

/-- Suffix set of `/\.(m?ts|[cm]ts)$/` (ESM rewrite). -/
def esmRewriteExts : List Str :=
  [cs ".ts", cs ".mts", cs ".cts"]

/-- `'../'.repeat(n)`. -/
def repeatStr (n : Nat) (s : Str) : Str :=
  match n with
  | 0 => []
  | n + 1 => s ++ repeatStr n s

/-! ## JSON values and JS object semantics

`package.json` contents are JSON values.  Objects are ordered
association lists: JS keeps string keys in insertion order, assignment
to an existing key overwrites in place, and `delete` removes the key.
-/

/-- JSON values as manipulated by the manifest synthesizer. -/
inductive JVal where
  | str (s : Str)
  | bool (b : Bool)
  | num (n : Int)
  | obj (fields : List (Str × JVal))

/-- An ordered JS object. -/
abbrev JObj := List (Str × JVal)

/-- Property lookup `o[k]` (first — and, for objects built by `objSet`,
only — entry with that key). -/
def objGet (o : List (Str × α)) (k : Str) : Option α :=
  match o with
  | [] => none
  | p :: rest => if p.1 = k then some p.2 else objGet rest k

/-- `k in o`. -/
def objHasKey (o : List (Str × α)) (k : Str) : Bool :=
  match o with
  | [] => false
  | p :: rest => p.1 = k || objHasKey rest k

/-- Property assignment `o[k] = v`: overwrite in place if the key
exists, else append. -/
def objSet (o : List (Str × α)) (k : Str) (v : α) : List (Str × α) :=
  match o with
  | [] => [(k, v)]
  | p :: rest =>
    if p.1 = k then (k, v) :: rest else p :: objSet rest k v

/-- `delete o[k]`. -/
def objDelete (o : List (Str × α)) (k : Str) : List (Str × α) :=
  o.filter (fun p => p.1 ≠ k)

/-- Object spread `{ ...a, ...b }`: the entries of `b` assigned over `a`
in order. -/
def objMerge (a b : List (Str × α)) : List (Str × α) :=
  b.foldl (fun acc p => objSet acc p.1 p.2) a

/-- A quoted JSON string (escaping is irrelevant to the byte-identity
arguments: the serializer is a fixed deterministic function). -/
def quoteStr (s : Str) : Str := '"' :: s ++ ['"']

mutual
/-- `JSON.stringify` of a value (rendered compactly; the fixed two-space
indentation of the writer is a bijective re-rendering and does not
affect any byte-identity comparison). -/
def serializeJVal : JVal → Str
  | .str s => quoteStr s
  | .bool b => if b then cs "true" else cs "false"
  | .num n => cs (toString n)
  | .obj fields => '\x7b' :: serializeFields fields ++ ['\x7d']

/-- Comma-separated `"key":value` renderings. -/
def serializeFields : List (Str × JVal) → Str
  | [] => []
  | [(k, v)] => quoteStr k ++ ':' :: serializeJVal v
  | (k, v) :: rest =>
    quoteStr k ++ ':' :: serializeJVal v ++ ',' :: serializeFields rest
end

/-- The writer's on-disk rendering: `JSON.stringify(pkg, null, 2) + '\n'`. -/
def serializePkg (pkg : JObj) : Str :=
  serializeJVal (.obj pkg) ++ cs "\n"

/-- JS truthiness of a JSON value (`if (pkg.bin)` etc.). -/
def jTruthy : JVal → Bool
  | .str s => s ≠ []
  | .bool b => b
  | .num n => n ≠ 0
  | .obj _ => true

/-- `s.replace(pat, repl)` with a plain-string pattern: replace the
first occurrence. -/
def replaceFirstGo (pat repl : Str) : Str → Str
  | [] => []
  | c :: rest =>
    if strStartsWith (c :: rest) pat then repl ++ (c :: rest).drop pat.length
    else c :: replaceFirstGo pat repl rest

/-- `String.prototype.replace` with a plain-string pattern. -/
def replaceFirst (s pat repl : Str) : Str :=
  if pat = [] then repl ++ s else replaceFirstGo pat repl s

/-- An anchored suffix-removing regex such as `/\.cjs$/` with empty
replacement. -/
def dropSuffixIf (s suf : Str) : Str :=
  if strEndsWith s suf then strDropSuffix s suf else s

/-! ## Synthesis environment

`writePackageJson` (package.js lines 1114–1374) runs against a fixed
configuration and a fixed filesystem.  The environment bundles the
resolved configuration (`getSourceDir`/`getCJSDir`/`getESMDir`,
`config.files.extensions`, `commands.build.formats`), the `existsSync`
probe, and the Source Tree Scanner's output `getPublicFiles(sourcePath)`
(the scanner itself is modelled separately; for one synthesis pass over
an unchanged tree its output is a fixed list). -/

/-- Synthesis mode (`'development' | 'production' | 'production-types'`). -/
inductive Mode where
  | development
  | production
  | productionTypes
  deriving DecidableEq

/-- The two error classes of package.js. -/
inductive ModelError where
  | configuration (msg : Str)
  | package (msg : Str)
  deriving DecidableEq

/-- Fixed context of one `writePackageJson` invocation. -/
structure SynthEnv where
  rootPath : Str
  /-- `getSourceDir()` — `config.directories.source`. -/
  sourceDir : Str
  /-- `getCJSDir()` — `config.directories.cjs`. -/
  cjsDir : Str
  /-- `getESMDir()` — `config.directories.esm`. -/
  esmDir : Str
  /-- `config.files.extensions` (ordered probe list). -/
  extensions : List Str
  /-- `existsSync`. -/
  fsExists : Str → Bool
  /-- `getPublicFiles(sourcePath)` over the fixed source tree. -/
  publicFiles : List (Str × Str)
  /-- `commands.build.formats.cjs !== false`. -/
  formatsCjs : Bool
  /-- `commands.build.formats.esm !== false`. -/
  formatsEsm : Bool

/-- `join(rootPath, getSourceDir())`. -/
def sourcePathOf (env : SynthEnv) : Str := pjoin env.rootPath env.sourceDir

/-- `getPackageBuilds` (package.js line 342), reduced to the membership
facts `'cjs' in builds` / `'esm' in builds` that `writePackageJson`
consumes: formats enabled in config, ESM defaulted for binary packages,
and a `ConfigurationError` when nothing is enabled. -/
def getPackageBuildsFlags (fCjs fEsm hasBin : Bool) :
    Except ModelError (Bool × Bool) :=
  let cjs := fCjs
  let esm := fEsm
  let esm := if hasBin && !cjs && !esm then true else esm
  if !cjs && !esm then
    .error (.configuration (cs "No build formats detected in libsync.config.mjs"))
  else .ok (cjs, esm)

/-- `getActualFileExtension` (package.js line 1631): probe the
filesystem for each configured extension in order; fall back to `.js`. -/
def getActualFileExtension (env : SynthEnv) (relativePath : Str)
    (isSource : Bool) : Str :=
  let baseDir := if isSource then env.sourceDir else []
  match env.extensions.find? (fun ext =>
    env.fsExists (if isSource then
        pjoin3 env.rootPath baseDir (relativePath ++ ext)
      else pjoin env.rootPath (relativePath ++ ext))) with
  | some ext => ext
  | none => cs ".js"

/-- `hasTypesFile` (package.js line 84). -/
def hasTypesFile (env : SynthEnv) (relativePath : Str) : Bool :=
  env.fsExists (pjoin env.rootPath (relativePath ++ cs ".d.ts"))

/-- `getIndexFileExtension` (package.js line 816). -/
def getIndexFileExtension (env : SynthEnv) (prod : Bool) : Str :=
  if prod then cs ".ts"
  else
    match env.extensions.find? (fun ext =>
      env.fsExists (pjoin (sourcePathOf env) (cs "index" ++ ext))) with
    | some ext => ext
    | none => cs ".js"

/-- The `sourcePrefixes.some(...)` test inside `convertPathToProduction`
(package.js lines 869–876): the prefix-independent disjuncts are listed
once; `path` is the `./`-normalized path and `inputPath` the raw
argument, exactly as in the source. -/
def isSourcePathCheck (env : SynthEnv) (inputPath path : Str) : Bool :=
  (path = cs "./" ++ (cs "./" ++ env.sourceDir ++ cs "/")) ||
  (path = cs "./" ++ (env.sourceDir ++ cs "/")) ||
  strStartsWith path (cs "./" ++ env.sourceDir ++ cs "/") ||
  strStartsWith inputPath (env.sourceDir ++ cs "/") ||
  strStartsWith inputPath (cs "./" ++ env.sourceDir ++ cs "/")

/-- `convertPathToProduction` (package.js line 858). -/
def convertPathToProduction (env : SynthEnv) (hasCjs hasEsm : Bool)
    (inputPath : Str) : Str :=
  if inputPath = [] then inputPath
  else
    let path := ensureRelativePath inputPath
    if !(isSourcePathCheck env inputPath path) then path
    else
      let relativePath := stripDirPrefix env.sourceDir path
      if hasCjs then
        replaceSuffixAny cjsRewriteExts (cs ".cjs")
          (cs "./" ++ env.cjsDir ++ cs "/" ++ relativePath)
      else if hasEsm then
        replaceSuffixAny esmRewriteExts (cs ".js")
          (cs "./" ++ env.esmDir ++ cs "/" ++ relativePath)
      else path

/-- `convertPathToDevelopment` (package.js line 906). -/
def convertPathToDevelopment (env : SynthEnv) (inputPath : Str) : Str :=
  if inputPath = [] then inputPath
  else
    let path := ensureRelativePath inputPath
    if strStartsWith path (cs "./" ++ env.cjsDir ++ cs "/") ||
        strStartsWith inputPath (env.cjsDir ++ cs "/") then
      let relativePath := dropSuffixIf (stripDirPrefix env.cjsDir path) (cs ".cjs")
      let actualExt := getActualFileExtension env relativePath true
      cs "./" ++ env.sourceDir ++ cs "/" ++ relativePath ++ actualExt
    else if strStartsWith path (cs "./" ++ env.esmDir ++ cs "/") ||
        strStartsWith inputPath (env.esmDir ++ cs "/") then
      let relativePath := dropSuffixIf (stripDirPrefix env.esmDir path) (cs ".js")
      let actualExt := getActualFileExtension env relativePath true
      cs "./" ++ env.sourceDir ++ cs "/" ++ relativePath ++ actualExt
    else path

/-- One entry of a `bin` record under `convertBinPaths`: a string value
is converted (to production or development form), a non-string value is
dropped. -/
def convertBinEntry (env : SynthEnv) (hasCjs hasEsm : Bool) (mode : Mode)
    (p : Str × JVal) : Option (Str × JVal) :=
  match p.2 with
  | .str s => some (p.1, JVal.str
      (if mode = Mode.production then convertPathToProduction env hasCjs hasEsm s
       else convertPathToDevelopment env s))
  | _ => none

/-- `convertBinPaths` (package.js line 949): a string is converted
directly; a name→path record converts each string value (non-string
values are dropped); anything else passes through. -/
def convertBinPaths (env : SynthEnv) (hasCjs hasEsm : Bool) (mode : Mode)
    (bin : JVal) : JVal :=
  match bin with
  | .str s =>
    .str (if mode = Mode.production then convertPathToProduction env hasCjs hasEsm s
          else convertPathToDevelopment env s)
  | .obj entries =>
    .obj (entries.filterMap (convertBinEntry env hasCjs hasEsm mode))
  | other => other

/-- The conditional-exports builder `getExports` inside
`writePackageJson` (package.js lines 1148–1249): `types` first (when the
original manifest had a types field, and in the production modes only
when the probed declaration file exists, ESM before CJS), then `import`
when ESM is enabled, then `require` when CJS is enabled. -/
def wpjGetExports (env : SynthEnv) (hasCjs hasEsm : Bool) (mode : Mode)
    (willHaveTypesField : Bool) (path : Str) : JObj :=
  let sourcePath := sourcePathOf env
  let relativePath := replaceFirst (removeExt path) sourcePath []
  if mode ≠ Mode.production ∧ mode ≠ Mode.productionTypes then
    let originalExtension := extOf path
    let sourceExport := cs "./" ++ pjoin env.sourceDir relativePath ++ originalExtension
    let e : JObj := []
    let e := if willHaveTypesField then
        objSet e (cs "types") (.str sourceExport) else e
    let e := if hasEsm then objSet e (cs "import") (.str sourceExport) else e
    let e := if hasCjs then objSet e (cs "require") (.str sourceExport) else e
    e
  else if mode = Mode.productionTypes then
    let originalExtension := extOf path
    let sourceExport := cs "./" ++ pjoin env.sourceDir relativePath ++ originalExtension
    let e : JObj := []
    let e := if willHaveTypesField then
        (if hasEsm ∧ hasTypesFile env (pjoin env.esmDir relativePath) then
          objSet e (cs "types")
            (.str (cs "./" ++ pjoin env.esmDir relativePath ++ cs ".d.ts"))
        else if hasCjs ∧ hasTypesFile env (pjoin env.cjsDir relativePath) then
          objSet e (cs "types")
            (.str (cs "./" ++ pjoin env.cjsDir relativePath ++ cs ".d.ts"))
        else e)
      else e
    let e := if hasEsm then objSet e (cs "import") (.str sourceExport) else e
    let e := if hasCjs then objSet e (cs "require") (.str sourceExport) else e
    e
  else
    let esmExt := if hasEsm then
        getActualFileExtension env (pjoin env.esmDir relativePath) false
      else cs ".js"
    let cjsExt := if hasCjs then
        getActualFileExtension env (pjoin env.cjsDir relativePath) false
      else cs ".cjs"
    let esmExport := cs "./" ++ pjoin env.esmDir relativePath ++ esmExt
    let cjsExport := cs "./" ++ pjoin env.cjsDir relativePath ++ cjsExt
    let e : JObj := []
    let e := if willHaveTypesField then
        (if hasEsm ∧ hasTypesFile env (pjoin env.esmDir relativePath) then
          objSet e (cs "types")
            (.str (cs "./" ++ pjoin env.esmDir relativePath ++ cs ".d.ts"))
        else if hasCjs ∧ hasTypesFile env (pjoin env.cjsDir relativePath) then
          objSet e (cs "types")
            (.str (cs "./" ++ pjoin env.cjsDir relativePath ++ cs ".d.ts"))
        else e)
      else e
    let e := if hasEsm then objSet e (cs "import") (.str esmExport) else e
    let e := if hasCjs then objSet e (cs "require") (.str cjsExport) else e
    e

/-- The `moduleExports` fold of `writePackageJson` (lines 1252–1261):
`index` becomes `.`; any other name becomes `./name` with a trailing
`/index` stripped. -/
def moduleExportsOf (env : SynthEnv) (hasCjs hasEsm : Bool) (mode : Mode)
    (originalHadTypes : Bool) : JObj :=
  env.publicFiles.foldl (fun acc p =>
    let exportKey :=
      if p.1 = cs "index" then cs "."
      else cs "./" ++ dropSuffixIf p.1 (cs "/index")
    objSet acc exportKey
      (.obj (wpjGetExports env hasCjs hasEsm mode originalHadTypes p.2))) []

/-- The `'cjs' in builds` block of `writePackageJson`'s mutation (lines
1266–1297): set `main`, and `types` under the mode's conditions. -/
def cjsStep (env : SynthEnv) (hasCjs : Bool) (mode : Mode)
    (originalHadTypes : Bool) (pkg : JObj) : JObj :=
  if hasCjs then
    if mode = Mode.production then
      let cjsIndexExt := getActualFileExtension env (pjoin env.cjsDir (cs "index")) false
      let pkg := objSet pkg (cs "main")
        (.str (ensureRelativePath (pjoin env.cjsDir (cs "index" ++ cjsIndexExt))))
      if originalHadTypes ∧ hasTypesFile env (pjoin env.cjsDir (cs "index")) then
        objSet pkg (cs "types")
          (.str (ensureRelativePath (pjoin env.cjsDir (cs "index.d.ts"))))
      else pkg
    else if mode = Mode.productionTypes then
      let pkg := objSet pkg (cs "main")
        (.str (ensureRelativePath (pjoin env.sourceDir
          (cs "index" ++ getIndexFileExtension env false))))
      if originalHadTypes ∧ hasTypesFile env (pjoin env.cjsDir (cs "index")) then
        objSet pkg (cs "types")
          (.str (ensureRelativePath (pjoin env.cjsDir (cs "index.d.ts"))))
      else pkg
    else
      let pkg := objSet pkg (cs "main")
        (.str (ensureRelativePath (pjoin env.sourceDir
          (cs "index" ++ getIndexFileExtension env false))))
      if originalHadTypes then
        objSet pkg (cs "types")
          (.str (ensureRelativePath (pjoin env.sourceDir
            (cs "index" ++ getIndexFileExtension env false))))
      else pkg
  else pkg

/-- The `'esm' in builds` block of the mutation (lines 1299–1330): set
`module`, and `types` under the mode's conditions (running after the
CJS block, so an ESM-derived `types` overwrites a CJS-derived one). -/
def esmStep (env : SynthEnv) (hasEsm : Bool) (mode : Mode)
    (originalHadTypes : Bool) (pkg : JObj) : JObj :=
  if hasEsm then
    if mode = Mode.production then
      let esmIndexExt := getActualFileExtension env (pjoin env.esmDir (cs "index")) false
      let pkg := objSet pkg (cs "module")
        (.str (ensureRelativePath (pjoin env.esmDir (cs "index" ++ esmIndexExt))))
      if originalHadTypes ∧ hasTypesFile env (pjoin env.esmDir (cs "index")) then
        objSet pkg (cs "types")
          (.str (ensureRelativePath (pjoin env.esmDir (cs "index.d.ts"))))
      else pkg
    else if mode = Mode.productionTypes then
      let pkg := objSet pkg (cs "module")
        (.str (ensureRelativePath (pjoin env.sourceDir
          (cs "index" ++ getIndexFileExtension env false))))
      if originalHadTypes ∧ hasTypesFile env (pjoin env.esmDir (cs "index")) then
        objSet pkg (cs "types")
          (.str (ensureRelativePath (pjoin env.esmDir (cs "index.d.ts"))))
      else pkg
    else
      let pkg := objSet pkg (cs "module")
        (.str (ensureRelativePath (pjoin env.sourceDir
          (cs "index" ++ getIndexFileExtension env false))))
      if originalHadTypes then
        objSet pkg (cs "types")
          (.str (ensureRelativePath (pjoin env.sourceDir
            (cs "index" ++ getIndexFileExtension env false))))
      else pkg
  else pkg

/-- The `if (pkg.bin) pkg.bin = convertBinPaths(...)` block (lines
1332–1335). -/
def binStep (env : SynthEnv) (hasCjs hasEsm : Bool) (mode : Mode)
    (pkg : JObj) : JObj :=
  match objGet pkg (cs "bin") with
  | some bin =>
    if jTruthy bin then
      objSet pkg (cs "bin") (convertBinPaths env hasCjs hasEsm mode bin)
    else pkg
  | none => pkg

/-- The `pkg.exports = { ...moduleExports, './package.json': ... }`
assignment (lines 1337–1341). -/
def exportsStep (env : SynthEnv) (hasCjs hasEsm : Bool) (mode : Mode)
    (originalHadTypes : Bool) (pkg : JObj) : JObj :=
  objSet pkg (cs "exports")
    (.obj (objSet (moduleExportsOf env hasCjs hasEsm mode originalHadTypes)
      (cs "./package.json") (.str (cs "./package.json"))))

/-- The in-place manifest mutation of `writePackageJson` (lines
1263–1341): `main`/`types` for CJS, `module`/`types` for ESM, `bin`
conversion, then the `exports` map — in source order.
`originalHadTypes` is captured from the parsed manifest before any
modification (line 1127). -/
def synthPkg (env : SynthEnv) (hasCjs hasEsm : Bool) (mode : Mode)
    (pkg : JObj) : JObj :=
  let originalHadTypes := objHasKey pkg (cs "types")
  exportsStep env hasCjs hasEsm mode originalHadTypes
    (binStep env hasCjs hasEsm mode
      (esmStep env hasEsm mode originalHadTypes
        (cjsStep env hasCjs mode originalHadTypes pkg)))

/-- Result of one `writePackageJson` call: the manifest on disk
afterwards (parsed), whether a write happened, and the returned
boolean. -/
structure WriteOutcome where
  disk : JObj
  wrote : Bool
  changed : Bool

/-- `writePackageJson` (package.js lines 1114–1374): read and parse the
current manifest (here: the `disk` object, whose serialization is the
current byte content), validate the source path, resolve builds, apply
the mutation, serialize with the fixed rendering, compare byte-for-byte
and write only on a difference.  In check mode nothing is written and
the comparison outcome is returned. -/
def writePackageJsonModel (env : SynthEnv) (mode : Mode) (checkMode : Bool)
    (disk : JObj) : Except ModelError WriteOutcome :=
  if ¬ env.fsExists (sourcePathOf env) then
    .error (.configuration (cs "Source directory not found: " ++ sourcePathOf env))
  else
    match getPackageBuildsFlags env.formatsCjs env.formatsEsm
        (objHasKey disk (cs "bin")) with
    | .error e => .error e
    | .ok (hasCjs, hasEsm) =>
      if serializePkg (synthPkg env hasCjs hasEsm mode disk) =
          serializePkg disk then
        .ok ⟨disk, false, false⟩
      else if checkMode then .ok ⟨disk, false, true⟩
      else .ok ⟨synthPkg env hasCjs hasEsm mode disk, true, false⟩

/-! ## Concrete environments for witnesses and counterexamples -/

/-- Default extension list of the configuration schema. -/
def defaultExtensions : List Str :=
  [cs ".js", cs ".jsx", cs ".ts", cs ".tsx", cs ".cjs", cs ".mjs",
   cs ".cts", cs ".mts", cs ".json"]

/-- A concrete package layout for witnesses: sources in `pkg/src`, both
build outputs present with declaration files. -/
def witnessFs : Str → Bool := fun p =>
  decide (p = cs "pkg/src") ||
  decide (p = cs "pkg/src/index.ts") ||
  decide (p = cs "pkg/src/util.ts") ||
  decide (p = cs "pkg/cjs/index.cjs") ||
  decide (p = cs "pkg/cjs/index.d.ts") ||
  decide (p = cs "pkg/cjs/util.cjs") ||
  decide (p = cs "pkg/cjs/util.d.ts") ||
  decide (p = cs "pkg/esm/index.js") ||
  decide (p = cs "pkg/esm/index.d.ts") ||
  decide (p = cs "pkg/esm/util.js") ||
  decide (p = cs "pkg/esm/util.d.ts")

/-- Witness environment over `witnessFs` with both formats enabled. -/
def witnessEnv : SynthEnv :=
  { rootPath := cs "pkg", sourceDir := cs "src", cjsDir := cs "cjs",
    esmDir := cs "esm", extensions := defaultExtensions,
    fsExists := witnessFs,
    publicFiles := [(cs "index", cs "pkg/src/index.ts"),
                    (cs "util", cs "pkg/src/util.ts")],
    formatsCjs := true, formatsEsm := true }

/-- A manifest with `name`, `main` and `types` fields, for witnesses. -/
def witnessPkg : JObj :=
  [(cs "name", .str (cs "x")),
   (cs "main", .str (cs "./src/index.ts")),
   (cs "types", .str (cs "./src/index.ts"))]

/-- Manifest produced by the first witness run of the writer. -/
def c1WitnessDisk : JObj :=
  synthPkg witnessEnv true true Mode.production witnessPkg

/-- Scenario filesystem of C5: `esm/index.d.ts` and `esm/index.mjs`
exist; `esm/index.js` does not. -/
def c5Fs : Str → Bool := fun p =>
  decide (p = cs "pkg/src") ||
  decide (p = cs "pkg/src/index.ts") ||
  decide (p = cs "pkg/esm/index.d.ts") ||
  decide (p = cs "pkg/esm/index.mjs")

/-- Scenario environment of C5: only the ESM format is enabled. -/
def c5Env : SynthEnv :=
  { rootPath := cs "pkg", sourceDir := cs "src", cjsDir := cs "cjs",
    esmDir := cs "esm", extensions := defaultExtensions,
    fsExists := c5Fs,
    publicFiles := [(cs "index", cs "pkg/src/index.ts")],
    formatsCjs := false, formatsEsm := true }

/-- Scenario manifest of C5: declares `types`, no `main`. -/
def c5Pkg : JObj :=
  [(cs "name", .str (cs "x")),
   (cs "module", .str (cs "./src/index.ts")),
   (cs "types", .str (cs "./src/index.ts"))]

/-- Filesystem for C3: a `.jsx` source (whose build name collides after
rewriting) and a `.ts` source (which round-trips). -/
def c3Fs : Str → Bool := fun p =>
  decide (p = cs "pkg/src") ||
  decide (p = cs "pkg/src/a.jsx") ||
  decide (p = cs "pkg/src/b.ts")

/-- Environment for C3. -/
def c3Env : SynthEnv :=
  { rootPath := cs "pkg", sourceDir := cs "src", cjsDir := cs "cjs",
    esmDir := cs "esm", extensions := defaultExtensions,
    fsExists := c3Fs, publicFiles := [(cs "a", cs "pkg/src/a.jsx")],
    formatsCjs := true, formatsEsm := true }

/-! ## Source tree scanner (package.js lines 440–745) -/

/-- `/^index\.(ts|js|cjs|mjs)$/.test(file)`. -/
def isIndexName (f : Str) : Bool :=
  decide (f = cs "index.ts") || decide (f = cs "index.js") ||
  decide (f = cs "index.cjs") || decide (f = cs "index.mjs")

/-- The scanner's configuration: `config.files.extensions`, the two
ignore-pattern matchers (`matchesAnyPattern` over the normalized
`ignoreBuildPaths` / `ignoreExportPaths`, kept abstract as predicates on
the matched relative path), and whether `isPureCLIPackage` holds for the
package root. -/
structure ScanEnv where
  extensions : List Str
  ignoreBuild : Str → Bool
  ignoreExport : Str → Bool
  pureCLI : Bool

/-- The filesystem as the scanner sees it: `readdirSync` (a listing
exactly when the path is a directory) and plain-file existence.
`existsSync` holds when either applies, `isDirectory` when a listing
does. -/
structure ScanFS where
  listing : Str → Option (List Str)
  isFile : Str → Bool

/-- `isDirectory`. -/
def isDirF (fs : ScanFS) (p : Str) : Bool := (fs.listing p).isSome

/-- `existsSync`. -/
def fsEx (fs : ScanFS) (p : Str) : Bool := isDirF fs p || fs.isFile p

/-- `relativePath ? relativePath + '/' + filename : filename`. -/
def pathToMatch (relativePath filename : Str) : Str :=
  if relativePath = [] then filename
  else relativePath ++ cs "/" ++ filename

/-- `shouldBuild` (package.js line 464). -/
def shouldBuild (se : ScanEnv) (fs : ScanFS)
    (rootPath filename relativePath : Str) : Bool :=
  if se.ignoreBuild (pathToMatch relativePath filename) then false
  else if isDirF fs (pjoin rootPath filename) then true
  else se.extensions.any (fun e => strEndsWith filename e)

/-- `shouldExport` (package.js line 514). -/
def shouldExport (se : ScanEnv) (fs : ScanFS)
    (rootPath filename relativePath : Str) : Bool :=
  if se.ignoreBuild (pathToMatch relativePath filename) then false
  else if se.ignoreExport (pathToMatch relativePath filename) then false
  else if isDirF fs (pjoin rootPath filename) then true
  else se.extensions.any (fun e => strEndsWith filename e)

/-- `.sort()` — JS default string sort, lexicographic by code unit. -/
def sortStrs (l : List Str) : List Str := l.insertionSort (· ≤ ·)

/-- The pure-CLI special case shared by both scanners (package.js
lines 584–597 and 659–672). -/
def pureCliIndex (fs : ScanFS) (sourcePath : Str) :
    Except ModelError (List (Str × Str)) :=
  let indexPath := pjoin sourcePath (cs "index.ts")
  if !fsEx fs indexPath && !fsEx fs (pjoin sourcePath (cs "index.js")) then
    .error (.configuration (cs "Pure CLI package missing index file"))
  else
    .ok [(cs "index",
      if fsEx fs indexPath then indexPath else pjoin sourcePath (cs "index.js"))]

/-- One `reduce` step of `getAllBuildFiles` (package.js lines 619–631):
a directory entry recurses and spreads `\x7b ...childFiles, ...acc \x7d`
(an empty child object is still truthy), a file entry assigns its
extension-stripped qualified key. -/
def buildStep (fs : ScanFS)
    (recur : Str → Str → Except ModelError (List (Str × Str)))
    (sourcePath pfx : Str) (acc : List (Str × Str)) (filename : Str) :
    Except ModelError (List (Str × Str)) :=
  let path := pjoin sourcePath filename
  if isDirF fs path then do
    let childFiles ← recur path (pjoin pfx filename)
    pure (objMerge childFiles acc)
  else
    pure (objSet acc (removeExt (normalizePath (pjoin pfx filename)))
      (normalizePath path))

/-- `getAllBuildFiles` (package.js line 574), with a recursion-depth
fuel standing in for the finiteness of the directory tree. -/
def getAllBuildFiles (se : ScanEnv) (fs : ScanFS) :
    Nat → Str → Str → Except ModelError (List (Str × Str))
  | 0, _, _ => .error (.package (cs "scan depth exceeded"))
  | fuel + 1, sourcePath, pfx =>
    if fsEx fs sourcePath = false then
      .error (.configuration (cs "Source directory does not exist"))
    else if pfx = [] ∧ se.pureCLI = true then
      pureCliIndex fs sourcePath
    else
      match fs.listing sourcePath with
      | none => .error (.configuration (cs "Failed to analyze source files"))
      | some entries =>
        let files := sortStrs (entries.filter
          (fun f => shouldBuild se fs sourcePath f pfx))
        if files = [] ∧ pfx = [] then
          .error (.configuration (cs "No valid source files found"))
        else
          files.foldlM
            (buildStep fs (getAllBuildFiles se fs fuel) sourcePath pfx) []

/-- One `reduce` step of `getPublicFiles` (package.js lines 694–731): a
directory entry recurses, spreads `\x7b ...acc, ...childFiles \x7d`, and —
when the directory's (unsorted) listing holds an index file — assigns
the directory key to the first index file found and deletes the
explicit `index` key; a file entry assigns its extension-stripped
qualified key. -/
def publicStep (fs : ScanFS)
    (recur : Str → Str → Except ModelError (List (Str × Str)))
    (sourcePath pfx : Str) (acc : List (Str × Str)) (filename : Str) :
    Except ModelError (List (Str × Str)) :=
  let path := pjoin sourcePath filename
  if isDirF fs path then do
    let childFiles ← recur path (pjoin pfx filename)
    let hasIndex := fsEx fs path && ((fs.listing path).getD []).any isIndexName
    let result := objMerge acc childFiles
    if hasIndex then
      match ((fs.listing path).getD []).find? isIndexName with
      | some indexFileName =>
        pure (objDelete
          (objSet result (normalizePath (pjoin pfx filename))
            (normalizePath (pjoin path indexFileName)))
          (normalizePath (pjoin (pjoin pfx filename) (cs "index"))))
      | none => pure result
    else
      pure result
  else
    pure (objSet acc (removeExt (normalizePath (pjoin pfx filename)))
      (normalizePath path))

/-- `getPublicFiles` (package.js line 649), with fuel. -/
def getPublicFiles (se : ScanEnv) (fs : ScanFS) :
    Nat → Str → Str → Except ModelError (List (Str × Str))
  | 0, _, _ => .error (.package (cs "scan depth exceeded"))
  | fuel + 1, sourcePath, pfx =>
    if fsEx fs sourcePath = false then
      .error (.configuration (cs "Source directory does not exist"))
    else if pfx = [] ∧ se.pureCLI = true then
      pureCliIndex fs sourcePath
    else
      match fs.listing sourcePath with
      | none => .error (.package (cs "Error reading source files"))
      | some entries =>
        let files := sortStrs (entries.filter
          (fun f => shouldExport se fs sourcePath f pfx))
        if files = [] ∧ pfx = [] then
          .error (.configuration (cs "No valid source files found"))
        else
          files.foldlM
            (publicStep fs (getPublicFiles se fs fuel) sourcePath pfx) []

deriving instance DecidableEq for Except

/-- Filesystem for C10: one subdirectory `r/d` holding two index files,
listed in directory order `index.ts`, `index.js`. -/
def c10Fs1 : ScanFS :=
  { listing := fun p =>
      if p = cs "r" then some [cs "d"]
      else if p = cs "r/d" then some [cs "index.ts", cs "index.js"]
      else none,
    isFile := fun p =>
      decide (p = cs "r/d/index.ts") || decide (p = cs "r/d/index.js") }

/-- The same tree with `r/d` listed in the opposite order. -/
def c10Fs2 : ScanFS :=
  { listing := fun p =>
      if p = cs "r" then some [cs "d"]
      else if p = cs "r/d" then some [cs "index.js", cs "index.ts"]
      else none,
    isFile := fun p =>
      decide (p = cs "r/d/index.ts") || decide (p = cs "r/d/index.js") }

/-- Scanner configuration for C10: default extensions, no ignore
patterns, not a pure-CLI package. -/
def c10Se : ScanEnv :=
  { extensions := defaultExtensions, ignoreBuild := fun _ => false,
    ignoreExport := fun _ => false, pureCLI := false }

/-- Pointwise equivalence of two filesystems up to directory-listing
order: the same files, and listings that are permutations of each
other. -/
structure ScanFSPerm (fs1 fs2 : ScanFS) : Prop where
  isFileEq : ∀ p, fs1.isFile p = fs2.isFile p
  listingRel : ∀ p, (match fs1.listing p, fs2.listing p with
    | some l1, some l2 => l1.Perm l2
    | none, none => True
    | _, _ => False)

/-- Witness filesystem for C10: two sibling files listed in opposite
orders, no index files. -/
def c10wFs1 : ScanFS :=
  { listing := fun p => if p = cs "r" then some [cs "b.ts", cs "a.ts"] else none,
    isFile := fun p =>
      decide (p = cs "r/a.ts") || decide (p = cs "r/b.ts") }

/-- The same tree with the root listed in the opposite order. -/
def c10wFs2 : ScanFS :=
  { listing := fun p => if p = cs "r" then some [cs "a.ts", cs "b.ts"] else none,
    isFile := fun p =>
      decide (p = cs "r/a.ts") || decide (p = cs "r/b.ts") }

/-- Scanner configuration for C7: default extensions, no ignore
patterns, not a pure-CLI package. -/
def c7Se : ScanEnv :=
  { extensions := defaultExtensions, ignoreBuild := fun _ => false,
    ignoreExport := fun _ => false, pureCLI := false }

/-- Filesystem for C7: an empty root `r` and an empty subdirectory
`r/e`. -/
def c7Fs : ScanFS :=
  { listing := fun p =>
      if p = cs "r" then some []
      else if p = cs "r/e" then some []
      else none,
    isFile := fun _ => false }

/-- Scanner configuration for C6: default extensions, no ignore
patterns, not a pure-CLI package. -/
def c6Se : ScanEnv :=
  { extensions := defaultExtensions, ignoreBuild := fun _ => false,
    ignoreExport := fun _ => false, pureCLI := false }

/-- Filesystem for C6: `r/foo` has an index file among its eligible
files, `r/bar` does not. -/
def c6Fs : ScanFS :=
  { listing := fun p =>
      if p = cs "r" then some [cs "foo", cs "bar"]
      else if p = cs "r/foo" then some [cs "index.ts", cs "x.ts"]
      else if p = cs "r/bar" then some [cs "y.ts"]
      else none,
    isFile := fun p =>
      decide (p = cs "r/foo/index.ts") || decide (p = cs "r/foo/x.ts") ||
      decide (p = cs "r/bar/y.ts") }

/-! ## Submodule (proxy) manifest generation (package.js lines 750 and 1786) -/

/-- `moduleName.split(chr).length` — one more than the number of
slashes. -/
def segCount (s : Str) : Nat := s.count '/' + 1

/-- JS string interpolation of a manifest field expected to be a
string. -/
def jStrOf (v : Option JVal) : Str :=
  match v with
  | some (.str s) => s
  | _ => cs "undefined"

/-- The regex `/\/index\.[^\/]+$/.test(filePath)`: the last path
segment is `index.` followed by at least one character, and a slash
precedes it. -/
def isDirectoryExportPath (p : Str) : Bool :=
  let seg := (p.reverse.takeWhile (fun c => c ≠ '/')).reverse
  decide ('/' ∈ p) && strStartsWith seg (cs "index.") &&
    decide (6 < seg.length)

/-- One mapped entry of `getProxyFolders` (package.js lines 755–766). -/
def proxyEntry (p : Str × Str) : Str × Str :=
  let proxyName := dropSuffixIf p.1 (cs "/index")
  (proxyName,
    if isDirectoryExportPath p.2 then proxyName ++ cs "/index" else p.1)

/-- `getProxyFolders` (package.js line 750): map the export entries,
drop the root `index` key, and rebuild an object
(`Object.fromEntries`). -/
def getProxyFolders (pf : List (Str × Str)) : List (Str × Str) :=
  ((pf.map proxyEntry).filter (fun q => q.1 ≠ cs "index")).foldl
    (fun acc q => objSet acc q.1 q.2) []

/-- The three fields every proxy manifest starts with (package.js
lines 1800–1804). -/
def proxyBase (pkg : JObj) (moduleName : Str) : JObj :=
  [(cs "name", .str (jStrOf (objGet pkg (cs "name")) ++ cs "/" ++ moduleName)),
   (cs "private", .bool true),
   (cs "sideEffects", .bool false)]

/-- `generateProxyPackageJson` (package.js line 1786), as the ordered
object it stringifies.  `hasCjs`/`hasEsm` stand for
`'cjs' in builds` / `'esm' in builds`. -/
def generateProxyPackageJson (env : SynthEnv) (pkg : JObj)
    (hasCjs hasEsm : Bool) (moduleName path : Str) (mode : Mode) : JObj :=
  let pre := repeatStr (segCount moduleName) (cs "../")
  let originalHadTypes := objHasKey pkg (cs "types")
  let base := proxyBase pkg moduleName
  match mode with
  | .production =>
    let p1 :=
      if hasEsm then
        let esmExt := getActualFileExtension env (pjoin env.esmDir path) false
        let p := objSet base (cs "module")
          (.str (pjoin3 pre env.esmDir (path ++ esmExt)))
        if originalHadTypes && hasTypesFile env (pjoin env.esmDir path) then
          objSet p (cs "types")
            (.str (pjoin3 pre env.esmDir (path ++ cs ".d.ts")))
        else p
      else base
    if hasCjs then
      let cjsExt := getActualFileExtension env (pjoin env.cjsDir path) false
      let p2 := objSet p1 (cs "main")
        (.str (pjoin3 pre env.cjsDir (path ++ cjsExt)))
      if originalHadTypes && hasTypesFile env (pjoin env.cjsDir path) then
        objSet p2 (cs "types")
          (.str (pjoin3 pre env.cjsDir (path ++ cs ".d.ts")))
      else p2
    else p1
  | .productionTypes =>
    let srcExt := getActualFileExtension env path true
    let srcPath := pjoin3 pre env.sourceDir (path ++ srcExt)
    let p1 := if hasCjs then objSet base (cs "main") (.str srcPath) else base
    let p2 := if hasEsm then objSet p1 (cs "module") (.str srcPath) else p1
    if originalHadTypes then
      if hasEsm && hasTypesFile env (pjoin env.esmDir path) then
        objSet p2 (cs "types")
          (.str (pjoin3 pre env.esmDir (path ++ cs ".d.ts")))
      else if hasCjs && hasTypesFile env (pjoin env.cjsDir path) then
        objSet p2 (cs "types")
          (.str (pjoin3 pre env.cjsDir (path ++ cs ".d.ts")))
      else p2
    else p2
  | .development =>
    let srcExt := getActualFileExtension env path true
    let srcPath := pjoin3 pre env.sourceDir (path ++ srcExt)
    let p1 := objSet (objSet base (cs "main") (.str srcPath))
      (cs "module") (.str srcPath)
    if originalHadTypes then objSet p1 (cs "types") (.str srcPath) else p1

/-- Filesystem for C8: submodule `sub` with declaration files for both
build outputs, plus a root index pair. -/
def c8Fs : Str → Bool := fun p =>
  decide (p = cs "pkg/src") ||
  decide (p = cs "pkg/src/index.ts") ||
  decide (p = cs "pkg/src/sub.ts") ||
  decide (p = cs "pkg/cjs/index.cjs") ||
  decide (p = cs "pkg/cjs/index.d.ts") ||
  decide (p = cs "pkg/cjs/sub.cjs") ||
  decide (p = cs "pkg/cjs/sub.d.ts") ||
  decide (p = cs "pkg/esm/index.js") ||
  decide (p = cs "pkg/esm/index.d.ts") ||
  decide (p = cs "pkg/esm/sub.js") ||
  decide (p = cs "pkg/esm/sub.d.ts")

/-- Environment for C8. -/
def c8Env : SynthEnv :=
  { rootPath := cs "pkg", sourceDir := cs "src", cjsDir := cs "cjs",
    esmDir := cs "esm", extensions := defaultExtensions,
    fsExists := c8Fs,
    publicFiles := [(cs "index", cs "pkg/src/index.ts"),
                    (cs "sub", cs "pkg/src/sub.ts")],
    formatsCjs := true, formatsEsm := true }

/-- Manifest for C8: has `name` and `types`. -/
def c8Pkg : JObj :=
  [(cs "name", .str (cs "x")),
   (cs "main", .str (cs "./src/index.ts")),
   (cs "types", .str (cs "./src/index.ts"))]

/-! ## Build orchestration (cli.js `buildCommand`, part_004 lines 44–308) -/

/-- Outcomes of the orchestrated steps of one `buildCommand` run in
production (non-`typesOnly`, non-watch) mode.  Each field is the result
the corresponding call would produce; `bundler` lists the per-format
`tsup.build` outcomes in `Object.entries(builds)` order;
`writeDevelopment` is the outcome of the revert write
(`writePackageJson(packagePath, 'development')`). -/
structure BuildSteps where
  clean : Except ModelError Unit
  analyze : Except ModelError Unit
  typesStep : Except ModelError Unit
  bundler : List (Str × Except Str Unit)
  metadata : Except ModelError Unit
  writeProduction : Except ModelError Unit
  writeDevelopment : Except ModelError Unit

/-- The tsup loop (part_004 lines 184–206): the first failing format
aborts the loop with its error wrapped as a `PackageError`. -/
def bundleFormats (fmts : List (Str × Except Str Unit)) :
    Except ModelError Unit :=
  match fmts with
  | [] => .ok ()
  | (fmt, r) :: rest =>
    match r with
    | .error msg =>
      .error (.package (cs "Failed to build " ++ fmt ++ cs " format: " ++ msg))
    | .ok _ => bundleFormats rest

/-- `buildCommand` (part_004 lines 70–307) over the step outcomes: runs
the steps in order inside the `try`; a step-8 failure reverts the
manifest and rethrows (inner catch, lines 221–239); any error reaching
the outer catch (lines 249–307) reverts the manifest best-effort — a
failing revert keeps the previous manifest and is logged non-fatally —
and rethrows the original error.  Returns the final on-disk manifest
mode and the command's result. -/
def buildCommandModel (steps : BuildSteps) (m0 : Mode) :
    Mode × Except ModelError Unit :=
  let revert : Mode → Mode := fun m =>
    match steps.writeDevelopment with
    | .ok _ => Mode.development
    | .error _ => m
  let inner : Mode × Except ModelError Unit :=
    match steps.clean with
    | .error e => (m0, .error e)
    | .ok _ =>
      match steps.analyze with
      | .error e => (m0, .error e)
      | .ok _ =>
        match steps.typesStep with
        | .error e => (m0, .error e)
        | .ok _ =>
          match bundleFormats steps.bundler with
          | .error e => (m0, .error e)
          | .ok _ =>
            match steps.metadata with
            | .error e => (m0, .error e)
            | .ok _ =>
              match steps.writeProduction with
              | .ok _ => (Mode.production, .ok ())
              | .error e => (revert m0, .error e)
  match inner with
  | (m, .ok _) => (m, .ok ())
  | (m, .error e) => (revert m, .error e)

/-- Step outcomes for the C9 scenario: every step succeeds except the
`esm` bundler invocation; the revert write succeeds. -/
def c9Steps : BuildSteps :=
  { clean := .ok (), analyze := .ok (), typesStep := .ok (),
    bundler := [(cs "cjs", .ok ()), (cs "esm", .error (cs "boom"))],
    metadata := .ok (), writeProduction := .ok (),
    writeDevelopment := .ok () }

/-! ## Well-formed configurations

The path converters ping-pong between `./src/…`, `./cjs/…` and
`./esm/…` prefixes.  A configuration is well formed when the three
directory names are plain single-segment names: nonempty, without `/`,
not starting with `.`, and the source directory differs from each
output directory.  (The default configuration `src`/`cjs`/`esm`
satisfies this.) -/

/-- A plain directory name. -/
def dirOk (d : Str) : Prop := d ≠ [] ∧ '/' ∉ d ∧ d.head? ≠ some '.'

/-- Well-formedness of a synthesis environment's directory names. -/
structure EnvWF (env : SynthEnv) : Prop where
  srcOk : dirOk env.sourceDir
  cjsOk : dirOk env.cjsDir
  esmOk : dirOk env.esmDir
  srcCjs : env.sourceDir ≠ env.cjsDir
  srcEsm : env.sourceDir ≠ env.esmDir
  cjsEsm : env.cjsDir ≠ env.esmDir

/-- Conditional property assignment, the normal form of the
`main`/`module`/`types` blocks. -/
def condSet (b : Bool) (k : Str) (v : JVal) (pkg : JObj) : JObj :=
  if b then objSet pkg k v else pkg

/-- Value stored in `main` by the CJS block. -/
def cjsMainVal (env : SynthEnv) (mode : Mode) : JVal :=
  .str (ensureRelativePath (if mode = Mode.production then
      pjoin env.cjsDir (cs "index" ++
        getActualFileExtension env (pjoin env.cjsDir (cs "index")) false)
    else pjoin env.sourceDir (cs "index" ++ getIndexFileExtension env false)))

/-- Value stored in `types` by the CJS block (when it stores one). -/
def cjsTypesVal (env : SynthEnv) (mode : Mode) : JVal :=
  .str (ensureRelativePath (if mode = Mode.development then
      pjoin env.sourceDir (cs "index" ++ getIndexFileExtension env false)
    else pjoin env.cjsDir (cs "index.d.ts")))

/-- Whether the CJS block stores a `types` value. -/
def cjsTypesFlag (env : SynthEnv) (mode : Mode) (oht : Bool) : Bool :=
  oht && (decide (mode = Mode.development) ||
    hasTypesFile env (pjoin env.cjsDir (cs "index")))

/-- Value stored in `module` by the ESM block. -/
def esmModuleVal (env : SynthEnv) (mode : Mode) : JVal :=
  .str (ensureRelativePath (if mode = Mode.production then
      pjoin env.esmDir (cs "index" ++
        getActualFileExtension env (pjoin env.esmDir (cs "index")) false)
    else pjoin env.sourceDir (cs "index" ++ getIndexFileExtension env false)))

/-- Value stored in `types` by the ESM block (when it stores one). -/
def esmTypesVal (env : SynthEnv) (mode : Mode) : JVal :=
  .str (ensureRelativePath (if mode = Mode.development then
      pjoin env.sourceDir (cs "index" ++ getIndexFileExtension env false)
    else pjoin env.esmDir (cs "index.d.ts")))

/-- Whether the ESM block stores a `types` value. -/
def esmTypesFlag (env : SynthEnv) (mode : Mode) (oht : Bool) : Bool :=
  oht && (decide (mode = Mode.development) ||
    hasTypesFile env (pjoin env.esmDir (cs "index")))

/-! ## Ordered-object lemmas -/

theorem objGet_objSet_self (o : List (Str × α)) (k : Str) (v : α) :
    objGet (objSet o k v) k = some v := by
  induction o with
  | nil => simp [objSet, objGet]
  | cons p rest ih =>
    by_cases h : p.1 = k
    · simp [objSet, h, objGet]
    · simp [objSet, h, objGet, ih]

theorem objGet_objSet_ne (o : List (Str × α)) (k k' : Str) (v : α)
    (h : k' ≠ k) : objGet (objSet o k v) k' = objGet o k' := by
  have hkk' : (k = k') = False := eq_false (fun hk => h hk.symm)
  induction o with
  | nil => simp [objSet, objGet, hkk']
  | cons p rest ih =>
    by_cases hp : p.1 = k
    · simp [objSet, objGet, hp, hkk']
    · simp [objSet, hp, objGet, ih]

theorem objHasKey_eq_isSome (o : List (Str × α)) (k : Str) :
    objHasKey o k = (objGet o k).isSome := by
  induction o with
  | nil => simp [objHasKey, objGet]
  | cons p rest ih =>
    by_cases h : p.1 = k
    · simp [objHasKey, objGet, h]
    · simp [objHasKey, objGet, h, ih]

theorem objGet_eq_none_of_not_hasKey (o : List (Str × α)) (k : Str)
    (h : objHasKey o k = false) : objGet o k = none := by
  rw [objHasKey_eq_isSome] at h
  cases hg : objGet o k with
  | none => rfl
  | some v => rw [hg] at h; simp at h

theorem objHasKey_objSet_self (o : List (Str × α)) (k : Str) (v : α) :
    objHasKey (objSet o k v) k = true := by
  rw [objHasKey_eq_isSome, objGet_objSet_self]
  rfl

theorem objHasKey_objSet_ne (o : List (Str × α)) (k k' : Str) (v : α)
    (h : k' ≠ k) : objHasKey (objSet o k v) k' = objHasKey o k' := by
  rw [objHasKey_eq_isSome, objHasKey_eq_isSome, objGet_objSet_ne _ _ _ _ h]

theorem keyNe_import_types : (cs "import" = cs "types") = False := by decide

theorem keyNe_require_types : (cs "require" = cs "types") = False := by decide

theorem keyNe_require_import : (cs "require" = cs "import") = False := by decide

theorem keyNe_types_import : (cs "types" = cs "import") = False := by decide

theorem keyNe_types_require : (cs "types" = cs "require") = False := by decide

theorem keyNe_import_require : (cs "import" = cs "require") = False := by decide

theorem objSet_eq_self_of_objGet (o : List (Str × α)) (k : Str) (v : α)
    (h : objGet o k = some v) : objSet o k v = o := by
  induction o with
  | nil => simp [objGet] at h
  | cons p rest ih =>
    by_cases hp : p.1 = k
    · have hv : p.2 = v := by
        simp only [objGet, hp, if_pos] at h
        exact Option.some.inj h
      have hpair : (k, v) = p := by
        cases p with
        | mk a b =>
          simp only at hp hv
          rw [hp, hv]
      simp [objSet, hp, hpair]
    · have h' : objGet rest k = some v := by
        simpa [objGet, hp] using h
      simp [objSet, hp, ih h']

/-! ## Path-string lemmas -/

/-- Two distinct slash-free directory names: `a/` is never a prefix of
`b/…`. -/
theorem not_prefix_dirSlash (a : Str) : ∀ (b r : Str), '/' ∉ a → '/' ∉ b →
    a ≠ b → (a ++ cs "/").isPrefixOf (b ++ cs "/" ++ r) = false := by
  induction a with
  | nil =>
    intro b r _ hb hne
    cases b with
    | nil => exact absurd rfl hne
    | cons y bs =>
      have hy : ('/' : Char) ≠ y := by
        intro h
        exact hb (h ▸ List.mem_cons_self y bs)
      simp [cs, List.isPrefixOf, hy]
  | cons x xs ih =>
    intro b r ha hb hne
    cases b with
    | nil =>
      have hx : x ≠ '/' := by
        intro h
        exact ha (h ▸ List.mem_cons_self x xs)
      simp [cs, List.isPrefixOf, hx]
    | cons y bs =>
      by_cases hxy : x = y
      · subst hxy
        have ha' : '/' ∉ xs := fun h => ha (List.mem_cons_of_mem _ h)
        have hb' : '/' ∉ bs := fun h => hb (List.mem_cons_of_mem _ h)
        have hne' : xs ≠ bs := fun h => hne (by rw [h])
        simpa [cs, List.isPrefixOf] using ih bs r ha' hb' hne'
      · simp [cs, List.isPrefixOf, hxy]

/-- A nonempty string whose head differs from `c` is not a prefix of
`c :: rest`. -/
theorem not_prefix_of_head_ne (b : Str) (c : Char) (rest : Str)
    (hb : b ≠ []) (hhead : b.head? ≠ some c) :
    b.isPrefixOf (c :: rest) = false := by
  cases b with
  | nil => exact absurd rfl hb
  | cons y bs =>
    have hy : y ≠ c := by
      intro h
      exact hhead (by simp [h])
    simp [List.isPrefixOf, hy]

/-- `ensureRelativePath` of a nonempty path always begins with `./`. -/
theorem ensureRelativePath_startsWith (s : Str) (hs : s ≠ []) :
    strStartsWith (ensureRelativePath s) (cs "./") = true := by
  unfold ensureRelativePath
  rw [if_neg hs]
  by_cases h1 : strStartsWith s (cs "./") = true
  · simp [h1]
  · rw [if_neg h1]
    by_cases h2 : strStartsWith s (cs "/") = true
    · rw [if_pos h2]
      cases s with
      | nil => exact absurd rfl hs
      | cons c t =>
        have hc : ('/' : Char) = c := by
          simpa [strStartsWith, cs, List.isPrefixOf] using h2
        simp [strStartsWith, cs, List.isPrefixOf, ← hc]
    · rw [if_neg h2]
      simp [strStartsWith, cs, List.isPrefixOf]

/-- `ensureRelativePath` leaves a `./`-path unchanged. -/
theorem ensureRelativePath_of_startsWith (s : Str)
    (h : strStartsWith s (cs "./") = true) : ensureRelativePath s = s := by
  have hs : s ≠ [] := by
    intro he
    subst he
    simp [strStartsWith, cs, List.isPrefixOf] at h
  unfold ensureRelativePath
  rw [if_neg hs, if_pos h]

/-- Rewriting an extension suffix preserves a directory prefix that
ends in `/`, because no slash-free suffix candidate can reach past the
final path separator. -/
theorem replaceSuffixAny_startsWith (cands : List Str) (repl pre rel : Str)
    (hpre : pre.getLast? = some '/')
    (hc : ∀ cand ∈ cands, '/' ∉ cand) :
    strStartsWith (replaceSuffixAny cands repl (pre ++ rel)) pre = true := by
  unfold replaceSuffixAny
  cases hfind : (cands.find? (fun c => strEndsWith (pre ++ rel) c)) with
  | none =>
    simp [strStartsWith, List.isPrefixOf_iff_prefix, List.prefix_append]
  | some cand =>
    have hmem : cand ∈ cands := List.mem_of_find?_eq_some hfind
    have hsuf : cand <:+ (pre ++ rel) := by
      have hp := List.find?_some hfind
      exact (List.isSuffixOf_iff_suffix).mp hp
    have hnoslash : '/' ∉ cand := hc cand hmem
    have hlen : cand.length ≤ rel.length := by
      by_contra hgt
      push_neg at hgt
      have hrel : rel <:+ (pre ++ rel) := List.suffix_append pre rel
      rcases List.suffix_or_suffix_of_suffix hsuf hrel with h | h
      · exact absurd h.length_le (by omega)
      · rcases h with ⟨u, hu⟩
        have hune : u ≠ [] := by
          intro h0
          subst h0
          simp at hu
          subst hu
          omega
        rcases hsuf with ⟨t, ht⟩
        rw [← hu, ← List.append_assoc] at ht
        have htu : t ++ u = pre := List.append_cancel_right ht
        have hlast : u.getLast? = some '/' := by
          rw [← htu, List.getLast?_append] at hpre
          cases hu2 : u.getLast? with
          | none => exact absurd (List.getLast?_eq_none_iff.mp hu2) hune
          | some z =>
            rw [hu2] at hpre
            simpa using hpre
        have hz : '/' ∈ u := List.mem_of_mem_getLast? hlast
        exact hnoslash (hu ▸ List.mem_append_left rel hz)
    have htake : strDropSuffix (pre ++ rel) cand =
        pre ++ rel.take (rel.length - cand.length) := by
      unfold strDropSuffix
      have harith : pre.length + rel.length - cand.length =
          pre.length + (rel.length - cand.length) := by omega
      rw [List.length_append, harith, List.take_append]
    show strStartsWith (strDropSuffix (pre ++ rel) cand ++ repl) pre = true
    rw [htake]
    simp [strStartsWith, List.isPrefixOf_iff_prefix]

/-! ## Path-converter idempotence

`convertPathToProduction` and `convertPathToDevelopment` are idempotent
on well-formed configurations: a converted path is outside the source
prefix (respectively outside the build prefixes), so a second
conversion returns it unchanged. -/

theorem head?_append_nonempty (a b : Str) (ha : a ≠ []) :
    (a ++ b).head? = a.head? := by
  cases a with
  | nil => exact absurd rfl ha
  | cons x xs => simp

theorem strStartsWith_ne_nil (y pre : Str) (hpre : pre ≠ [])
    (h : strStartsWith y pre = true) : y ≠ [] := by
  intro he
  subst he
  cases pre with
  | nil => exact hpre rfl
  | cons a as => simp [strStartsWith, List.isPrefixOf] at h

/-- A path that begins with `./` never matches a `DIR/` raw prefix for
a plain directory name. -/
theorem startsDot_not_dir (src : Str) (hsrc : dirOk src) (y : Str)
    (hy : strStartsWith y (cs "./") = true) :
    strStartsWith y (src ++ cs "/") = false := by
  cases y with
  | nil => simp [strStartsWith, cs, List.isPrefixOf] at hy
  | cons a t =>
    have ha : ('.' : Char) = a := by
      have h2 := hy
      simp [strStartsWith, cs, List.isPrefixOf] at h2
      exact h2.1
    have hb : (src ++ cs "/") ≠ [] := by
      simp [hsrc.1, cs]
    have hh : (src ++ cs "/").head? ≠ some a := by
      rw [head?_append_nonempty src (cs "/") hsrc.1, ← ha]
      exact hsrc.2.2
    exact not_prefix_of_head_ne (src ++ cs "/") a t hb hh

/-- A path outside every source prefix converts to its `./`-normal
form. -/
theorem convProd_not_source (env : SynthEnv) (c e : Bool) (y : Str)
    (hy : y ≠ [])
    (hnorm : ensureRelativePath y = y)
    (hnsp : isSourcePathCheck env y y = false) :
    convertPathToProduction env c e y = y := by
  unfold convertPathToProduction
  rw [if_neg hy]
  simp only [hnorm, hnsp]
  simp

theorem dirPath_startsWith_dotslash (A tail : Str) :
    strStartsWith (cs "./" ++ A ++ cs "/" ++ tail) (cs "./") = true := by
  simp [strStartsWith, cs, List.isPrefixOf]

theorem dirPath_d3 (src A : Str) (hsrc : dirOk src) (hA : dirOk A)
    (hne : src ≠ A) (tail : Str) :
    strStartsWith (cs "./" ++ A ++ cs "/" ++ tail)
      (cs "./" ++ src ++ cs "/") = false := by
  have base := not_prefix_dirSlash src A tail hsrc.2.1 hA.2.1 hne
  unfold strStartsWith
  simpa [cs, List.isPrefixOf] using base

theorem dirPath_d4 (src A : Str) (hsrc : dirOk src) (tail : Str) :
    strStartsWith (cs "./" ++ A ++ cs "/" ++ tail) (src ++ cs "/") = false := by
  have hb : (src ++ cs "/") ≠ [] := by
    simp [hsrc.1, cs]
  have hh : (src ++ cs "/").head? ≠ some '.' := by
    rw [head?_append_nonempty src (cs "/") hsrc.1]
    exact hsrc.2.2
  have base := not_prefix_of_head_ne (src ++ cs "/") '.'
    ('/' :: (A ++ ('/' :: tail))) hb hh
  unfold strStartsWith
  simpa [cs] using base

/-- A `./A/…` path for an output directory `A` distinct from the source
directory fails every disjunct of `isSourcePathCheck`. -/
theorem dirPath_not_source (env : SynthEnv) (hwf : EnvWF env) (A : Str)
    (hA : dirOk A) (hne : env.sourceDir ≠ A) (tail : Str) :
    isSourcePathCheck env (cs "./" ++ A ++ cs "/" ++ tail)
      (cs "./" ++ A ++ cs "/" ++ tail) = false := by
  unfold isSourcePathCheck
  rw [dirPath_d3 env.sourceDir A hwf.srcOk hA hne tail,
      dirPath_d4 env.sourceDir A hwf.srcOk tail]
  simp only [Bool.or_false, Bool.false_or, Bool.or_eq_false_iff,
    decide_eq_false_iff_not]
  simp only [cs, List.cons_append, List.nil_append, List.cons.injEq, true_and,
    List.append_assoc]
  constructor
  · intro h
    cases hAc : A with
    | nil => exact hA.1 hAc
    | cons a as =>
      rw [hAc] at h
      simp only [List.cons_append, List.cons.injEq] at h
      have hh : A.head? ≠ some '.' := hA.2.2
      rw [hAc] at hh
      exact hh (by simp [h.1])
  · intro h
    have base := not_prefix_dirSlash env.sourceDir A tail
      hwf.srcOk.2.1 hA.2.1 hne
    have hpref : (env.sourceDir ++ cs "/").isPrefixOf
        (A ++ cs "/" ++ tail) = true := by
      have hAeq : A ++ cs "/" ++ tail = env.sourceDir ++ cs "/" := by
        simpa [cs, List.append_assoc] using h
      rw [hAeq]
      simp [List.isPrefixOf_iff_prefix]
    rw [base] at hpref
    exact Bool.false_ne_true hpref

theorem dirPath_ne_nil (A tail : Str) :
    cs "./" ++ A ++ cs "/" ++ tail ≠ [] := by
  simp [cs]

theorem convProd_of_dirPath (env : SynthEnv) (hwf : EnvWF env) (c e : Bool)
    (A : Str) (hA : dirOk A) (hne : env.sourceDir ≠ A) (tail : Str) :
    convertPathToProduction env c e (cs "./" ++ A ++ cs "/" ++ tail) =
      cs "./" ++ A ++ cs "/" ++ tail :=
  convProd_not_source env c e _ (dirPath_ne_nil A tail)
    (ensureRelativePath_of_startsWith _ (dirPath_startsWith_dotslash A tail))
    (dirPath_not_source env hwf A hA hne tail)

/-- The extension-rewriting step keeps the `./DIR/` prefix: no slash-free
suffix candidate can reach past the final separator. -/
theorem replaceSuffixAny_dirPath_shape (cands : List Str) (repl A rel : Str)
    (hc : ∀ cand ∈ cands, '/' ∉ cand) :
    ∃ tail, replaceSuffixAny cands repl (cs "./" ++ A ++ cs "/" ++ rel) =
      cs "./" ++ A ++ cs "/" ++ tail := by
  have hpre : (cs "./" ++ A ++ cs "/").getLast? = some '/' := by
    have h0 : (cs "/").getLast? = some '/' := by decide
    simp [List.getLast?_append, h0]
  have happ : cs "./" ++ A ++ cs "/" ++ rel = (cs "./" ++ A ++ cs "/") ++ rel := by
    simp [List.append_assoc]
  have hsw := replaceSuffixAny_startsWith cands repl
    (cs "./" ++ A ++ cs "/") rel hpre hc
  rw [← happ] at hsw
  unfold strStartsWith at hsw
  rw [List.isPrefixOf_iff_prefix] at hsw
  rcases hsw with ⟨tail, htail⟩
  refine ⟨tail, ?_⟩
  rw [← htail]
  try simp [List.append_assoc]

/-- `convertPathToProduction` is idempotent on well-formed
configurations. -/
theorem convertPathToProduction_idem (env : SynthEnv) (hwf : EnvWF env)
    (c e : Bool) (s : Str) :
    convertPathToProduction env c e (convertPathToProduction env c e s) =
      convertPathToProduction env c e s := by
  by_cases hs : s = []
  · subst hs
    simp [convertPathToProduction]
  · have hyW := ensureRelativePath_startsWith s hs
    have hynil : ensureRelativePath s ≠ [] :=
      strStartsWith_ne_nil _ _ (by simp [cs]) hyW
    have hnorm : ensureRelativePath (ensureRelativePath s) = ensureRelativePath s :=
      ensureRelativePath_of_startsWith _ hyW
    by_cases hsp : isSourcePathCheck env s (ensureRelativePath s) = true
    · by_cases hc : c = true
      · have hPs : convertPathToProduction env c e s =
            replaceSuffixAny cjsRewriteExts (cs ".cjs")
              (cs "./" ++ env.cjsDir ++ cs "/" ++
                stripDirPrefix env.sourceDir (ensureRelativePath s)) := by
          unfold convertPathToProduction
          rw [if_neg hs]
          simp only [hsp, hc]
          simp
        rcases replaceSuffixAny_dirPath_shape cjsRewriteExts (cs ".cjs")
            env.cjsDir (stripDirPrefix env.sourceDir (ensureRelativePath s))
            (by decide) with ⟨tail, htail⟩
        rw [hPs, htail]
        exact convProd_of_dirPath env hwf c e env.cjsDir hwf.cjsOk hwf.srcCjs tail
      · by_cases he : e = true
        · have hPs : convertPathToProduction env c e s =
              replaceSuffixAny esmRewriteExts (cs ".js")
                (cs "./" ++ env.esmDir ++ cs "/" ++
                  stripDirPrefix env.sourceDir (ensureRelativePath s)) := by
            unfold convertPathToProduction
            rw [if_neg hs]
            simp only [hsp, hc, he]
            simp
          rcases replaceSuffixAny_dirPath_shape esmRewriteExts (cs ".js")
              env.esmDir (stripDirPrefix env.sourceDir (ensureRelativePath s))
              (by decide) with ⟨tail, htail⟩
          rw [hPs, htail]
          exact convProd_of_dirPath env hwf c e env.esmDir hwf.esmOk hwf.srcEsm tail
        · have hPs : convertPathToProduction env c e s = ensureRelativePath s := by
            unfold convertPathToProduction
            rw [if_neg hs]
            simp only [hsp, hc, he]
            simp
          rw [hPs]
          by_cases hsp2 : isSourcePathCheck env (ensureRelativePath s)
              (ensureRelativePath s) = true
          · unfold convertPathToProduction
            rw [if_neg hynil]
            simp only [hnorm, hsp2, hc, he]
            simp
          · exact convProd_not_source env c e _ hynil hnorm
              (by simpa using hsp2)
    · have hPs : convertPathToProduction env c e s = ensureRelativePath s := by
        unfold convertPathToProduction
        rw [if_neg hs]
        simp only [Bool.not_eq_true] at hsp
        simp [hsp]
      rw [hPs]
      apply convProd_not_source env c e _ hynil hnorm
      have hsp' := hsp
      simp only [Bool.not_eq_true, isSourcePathCheck, Bool.or_eq_false_iff,
        decide_eq_false_iff_not] at hsp'
      obtain ⟨⟨⟨⟨h1, h2⟩, h3⟩, h4⟩, h5⟩ := hsp'
      simp only [isSourcePathCheck, Bool.or_eq_false_iff, decide_eq_false_iff_not]
      refine ⟨⟨⟨⟨h1, h2⟩, h3⟩, ?_⟩, h3⟩
      exact startsDot_not_dir env.sourceDir hwf.srcOk _ hyW

/-- Development conversion leaves a `./src/…` path unchanged. -/
theorem convDev_of_dirPath (env : SynthEnv) (hwf : EnvWF env) (tail : Str) :
    convertPathToDevelopment env (cs "./" ++ env.sourceDir ++ cs "/" ++ tail) =
      cs "./" ++ env.sourceDir ++ cs "/" ++ tail := by
  unfold convertPathToDevelopment
  rw [if_neg (dirPath_ne_nil _ _)]
  have hnorm := ensureRelativePath_of_startsWith _
    (dirPath_startsWith_dotslash env.sourceDir tail)
  simp only [hnorm]
  rw [dirPath_d3 env.cjsDir env.sourceDir hwf.cjsOk hwf.srcOk
        (fun h => hwf.srcCjs h.symm) tail,
      dirPath_d3 env.esmDir env.sourceDir hwf.esmOk hwf.srcOk
        (fun h => hwf.srcEsm h.symm) tail,
      startsDot_not_dir env.cjsDir hwf.cjsOk _ (dirPath_startsWith_dotslash _ _),
      startsDot_not_dir env.esmDir hwf.esmOk _ (dirPath_startsWith_dotslash _ _)]
  simp

/-- `convertPathToDevelopment` is idempotent on well-formed
configurations. -/
theorem convertPathToDevelopment_idem (env : SynthEnv) (hwf : EnvWF env)
    (s : Str) :
    convertPathToDevelopment env (convertPathToDevelopment env s) =
      convertPathToDevelopment env s := by
  by_cases hs : s = []
  · subst hs
    simp [convertPathToDevelopment]
  · have hyW := ensureRelativePath_startsWith s hs
    have hynil : ensureRelativePath s ≠ [] :=
      strStartsWith_ne_nil _ _ (by simp [cs]) hyW
    have hnorm : ensureRelativePath (ensureRelativePath s) = ensureRelativePath s :=
      ensureRelativePath_of_startsWith _ hyW
    by_cases h1 : (strStartsWith (ensureRelativePath s)
        (cs "./" ++ env.cjsDir ++ cs "/") ||
        strStartsWith s (env.cjsDir ++ cs "/")) = true
    · have hPs : convertPathToDevelopment env s =
          cs "./" ++ env.sourceDir ++ cs "/" ++
            dropSuffixIf (stripDirPrefix env.cjsDir (ensureRelativePath s)) (cs ".cjs") ++
            getActualFileExtension env
              (dropSuffixIf (stripDirPrefix env.cjsDir (ensureRelativePath s))
                (cs ".cjs")) true := by
        unfold convertPathToDevelopment
        rw [if_neg hs]
        simp only [h1]
        simp
      rw [hPs, List.append_assoc]
      exact convDev_of_dirPath env hwf _
    · by_cases h2 : (strStartsWith (ensureRelativePath s)
          (cs "./" ++ env.esmDir ++ cs "/") ||
          strStartsWith s (env.esmDir ++ cs "/")) = true
      · have hPs : convertPathToDevelopment env s =
            cs "./" ++ env.sourceDir ++ cs "/" ++
              dropSuffixIf (stripDirPrefix env.esmDir (ensureRelativePath s)) (cs ".js") ++
              getActualFileExtension env
                (dropSuffixIf (stripDirPrefix env.esmDir (ensureRelativePath s))
                  (cs ".js")) true := by
          unfold convertPathToDevelopment
          rw [if_neg hs]
          simp only [Bool.not_eq_true] at h1
          simp only [h1, h2]
          simp
        rw [hPs, List.append_assoc]
        exact convDev_of_dirPath env hwf _
      · have hPs : convertPathToDevelopment env s = ensureRelativePath s := by
          unfold convertPathToDevelopment
          rw [if_neg hs]
          simp only [Bool.not_eq_true] at h1 h2
          simp only [h1, h2]
          simp
        rw [hPs]
        unfold convertPathToDevelopment
        rw [if_neg hynil]
        simp only [Bool.not_eq_true] at h1 h2
        simp only [Bool.or_eq_false_iff] at h1 h2
        have hr1 : strStartsWith (ensureRelativePath s) (env.cjsDir ++ cs "/") = false :=
          startsDot_not_dir env.cjsDir hwf.cjsOk _ hyW
        have hr2 : strStartsWith (ensureRelativePath s) (env.esmDir ++ cs "/") = false :=
          startsDot_not_dir env.esmDir hwf.esmOk _ hyW
        simp only [hnorm, h1.1, h2.1, hr1, hr2]
        simp

/-- Converting `bin` entry lists is idempotent. -/
theorem filterMap_convertBinEntry_idem (env : SynthEnv) (hwf : EnvWF env)
    (c e : Bool) (mode : Mode) (entries : List (Str × JVal)) :
    (entries.filterMap (convertBinEntry env c e mode)).filterMap
        (convertBinEntry env c e mode) =
      entries.filterMap (convertBinEntry env c e mode) := by
  induction entries with
  | nil => rfl
  | cons p rest ih =>
    cases p with
    | mk k v =>
      cases v with
      | str s =>
        by_cases hm : mode = Mode.production
        · subst hm
          simp [List.filterMap_cons, convertBinEntry,
            convertPathToProduction_idem env hwf, ih]
        · simp [List.filterMap_cons, convertBinEntry, hm,
            convertPathToDevelopment_idem env hwf, ih]
      | bool b => simpa [List.filterMap_cons, convertBinEntry] using ih
      | num n => simpa [List.filterMap_cons, convertBinEntry] using ih
      | obj o => simpa [List.filterMap_cons, convertBinEntry] using ih

/-- `convertBinPaths` is idempotent on well-formed configurations. -/
theorem convertBinPaths_idem (env : SynthEnv) (hwf : EnvWF env)
    (c e : Bool) (mode : Mode) (bin : JVal) :
    convertBinPaths env c e mode (convertBinPaths env c e mode bin) =
      convertBinPaths env c e mode bin := by
  cases bin with
  | str s =>
    unfold convertBinPaths
    by_cases hm : mode = Mode.production <;>
      simp [hm, convertPathToProduction_idem env hwf,
        convertPathToDevelopment_idem env hwf]
  | obj entries =>
    unfold convertBinPaths
    simp [filterMap_convertBinEntry_idem env hwf c e mode entries]
  | bool b => rfl
  | num n => rfl

/-! ## Manifest-mutation normal form and idempotence -/

theorem keyNe_main_types : (cs "main" = cs "types") = False := by decide

theorem keyNe_module_types : (cs "module" = cs "types") = False := by decide

/-- The bin-conversion block touches only the `bin` key. -/
theorem objGet_binStep_ne (env : SynthEnv) (hasCjs hasEsm : Bool)
    (mode : Mode) (pkg : JObj) (k : Str) (h : k ≠ cs "bin") :
    objGet (binStep env hasCjs hasEsm mode pkg) k = objGet pkg k := by
  unfold binStep
  cases objGet pkg (cs "bin") with
  | none => rfl
  | some bin =>
    by_cases ht : jTruthy bin
    · simp [ht, objGet_objSet_ne _ _ _ _ h]
    · simp [ht]

/-- The exports assignment touches only the `exports` key. -/
theorem objGet_exportsStep_ne (env : SynthEnv) (hasCjs hasEsm : Bool)
    (mode : Mode) (oht : Bool) (pkg : JObj) (k : Str)
    (h : k ≠ cs "exports") :
    objGet (exportsStep env hasCjs hasEsm mode oht pkg) k = objGet pkg k := by
  unfold exportsStep
  exact objGet_objSet_ne _ _ _ _ h

/-- Value of the `types` field after the CJS block: written only when
the original manifest had types and — in the probed production modes —
the CJS declaration file exists; otherwise untouched. -/
theorem objGet_cjsStep_types (env : SynthEnv) (hasCjs : Bool) (mode : Mode)
    (oht : Bool) (pkg : JObj) :
    objGet (cjsStep env hasCjs mode oht pkg) (cs "types") =
      (if hasCjs = true ∧
          ((mode = Mode.development ∧ oht = true) ∨
           (mode ≠ Mode.development ∧ oht = true ∧
            hasTypesFile env (pjoin env.cjsDir (cs "index")) = true)) then
        some (JVal.str (ensureRelativePath
          (if mode = Mode.production ∨ mode = Mode.productionTypes then
            pjoin env.cjsDir (cs "index.d.ts")
          else pjoin env.sourceDir (cs "index" ++ getIndexFileExtension env false))))
      else objGet pkg (cs "types")) := by
  unfold cjsStep
  cases hasCjs <;> cases mode <;> cases oht <;>
    by_cases hts : hasTypesFile env (pjoin env.cjsDir (cs "index")) = true <;>
    simp_all [objGet_objSet_self, objGet_objSet_ne, keyNe_main_types,
      objGet_objSet_ne _ (cs "main") (cs "types") _ (by decide)]

/-- Value of the `types` field after the ESM block (which runs after the
CJS block and therefore overwrites a CJS-derived value). -/
theorem objGet_esmStep_types (env : SynthEnv) (hasEsm : Bool) (mode : Mode)
    (oht : Bool) (pkg : JObj) :
    objGet (esmStep env hasEsm mode oht pkg) (cs "types") =
      (if hasEsm = true ∧
          ((mode = Mode.development ∧ oht = true) ∨
           (mode ≠ Mode.development ∧ oht = true ∧
            hasTypesFile env (pjoin env.esmDir (cs "index")) = true)) then
        some (JVal.str (ensureRelativePath
          (if mode = Mode.production ∨ mode = Mode.productionTypes then
            pjoin env.esmDir (cs "index.d.ts")
          else pjoin env.sourceDir (cs "index" ++ getIndexFileExtension env false))))
      else objGet pkg (cs "types")) := by
  unfold esmStep
  cases hasEsm <;> cases mode <;> cases oht <;>
    by_cases hts : hasTypesFile env (pjoin env.esmDir (cs "index")) = true <;>
    simp_all [objGet_objSet_self, objGet_objSet_ne, keyNe_module_types,
      objGet_objSet_ne _ (cs "module") (cs "types") _ (by decide)]

theorem objSet_objSet_same (m : List (Str × α)) (k : Str) (v w : α) :
    objSet (objSet m k v) k w = objSet m k w := by
  induction m with
  | nil => simp [objSet]
  | cons p rest ih =>
    by_cases hp : p.1 = k
    · simp [objSet, hp]
    · simp [objSet, hp, ih]

theorem condSet_false_eq (k : Str) (v : JVal) (pkg : JObj) :
    condSet false k v pkg = pkg := rfl

theorem objGet_condSet_ne (b : Bool) (k k' : Str) (v : JVal) (pkg : JObj)
    (h : k' ≠ k) : objGet (condSet b k v pkg) k' = objGet pkg k' := by
  cases b <;> simp [condSet, objGet_objSet_ne _ _ _ _ h]

theorem objGet_condSet_true (k : Str) (v : JVal) (pkg : JObj) :
    objGet (condSet true k v pkg) k = some v := by
  simp [condSet, objGet_objSet_self]

theorem cjsStep_shape (env : SynthEnv) (c : Bool) (mode : Mode) (oht : Bool)
    (pkg : JObj) :
    cjsStep env c mode oht pkg =
      condSet (c && cjsTypesFlag env mode oht) (cs "types") (cjsTypesVal env mode)
        (condSet c (cs "main") (cjsMainVal env mode) pkg) := by
  cases c <;> cases mode <;> cases oht <;>
    by_cases ht : hasTypesFile env (pjoin env.cjsDir (cs "index")) = true <;>
    simp_all [cjsStep, condSet, cjsTypesFlag, cjsMainVal, cjsTypesVal]

theorem esmStep_shape (env : SynthEnv) (e : Bool) (mode : Mode) (oht : Bool)
    (pkg : JObj) :
    esmStep env e mode oht pkg =
      condSet (e && esmTypesFlag env mode oht) (cs "types") (esmTypesVal env mode)
        (condSet e (cs "module") (esmModuleVal env mode) pkg) := by
  cases e <;> cases mode <;> cases oht <;>
    by_cases ht : hasTypesFile env (pjoin env.esmDir (cs "index")) = true <;>
    simp_all [esmStep, condSet, esmTypesFlag, esmModuleVal, esmTypesVal]

end Libsync

namespace Libsync

theorem condSet_chain_collapse (q : JObj) (b1 b2 b3 b4 : Bool)
    (kM kMod kT : Str) (vMn vM vCT vET : JVal)
    (hModT : kMod ≠ kT)
    (h1 : b1 = true → objGet q kM = some vMn)
    (h2 : b2 = true → objGet q kMod = some vM)
    (h4 : b4 = true → objGet q kT = some vET)
    (h34 : b3 = true → b4 = false → objGet q kT = some vCT) :
    condSet b4 kT vET (condSet b2 kMod vM (condSet b3 kT vCT
      (condSet b1 kM vMn q))) = q := by
  have s1 : condSet b1 kM vMn q = q := by
    cases b1 with
    | false => rfl
    | true => simp [condSet, objSet_eq_self_of_objGet _ _ _ (h1 rfl)]
  rw [s1]
  cases b4 with
  | true =>
    cases b3 with
    | false =>
      cases b2 with
      | false => simp [condSet, objSet_eq_self_of_objGet _ _ _ (h4 rfl)]
      | true =>
        simp [condSet, objSet_eq_self_of_objGet _ _ _ (h2 rfl),
          objSet_eq_self_of_objGet _ _ _ (h4 rfl)]
    | true =>
      cases b2 with
      | false =>
        simp [condSet, objSet_objSet_same,
          objSet_eq_self_of_objGet _ _ _ (h4 rfl)]
      | true =>
        have hmid : objSet (objSet q kT vCT) kMod vM = objSet q kT vCT := by
          apply objSet_eq_self_of_objGet
          rw [objGet_objSet_ne _ _ _ _ hModT]
          exact h2 rfl
        simp [condSet, hmid, objSet_objSet_same,
          objSet_eq_self_of_objGet _ _ _ (h4 rfl)]
  | false =>
    cases b3 with
    | false =>
      cases b2 with
      | false => rfl
      | true => simp [condSet, objSet_eq_self_of_objGet _ _ _ (h2 rfl)]
    | true =>
      have hq : objSet q kT vCT = q := objSet_eq_self_of_objGet _ _ _ (h34 rfl rfl)
      cases b2 with
      | false => simp [condSet, hq]
      | true => simp [condSet, hq, objSet_eq_self_of_objGet _ _ _ (h2 rfl)]

theorem me_objGet_main (env : SynthEnv) (c e : Bool) (mode : Mode)
    (oht : Bool) (pkg : JObj) :
    objGet (esmStep env e mode oht (cjsStep env c mode oht pkg)) (cs "main") =
      (if c = true then some (cjsMainVal env mode) else objGet pkg (cs "main")) := by
  rw [esmStep_shape, cjsStep_shape]
  rw [objGet_condSet_ne _ _ _ _ _ (by decide),
      objGet_condSet_ne _ _ _ _ _ (by decide),
      objGet_condSet_ne _ _ _ _ _ (by decide)]
  cases c with
  | false => rfl
  | true => simp [objGet_condSet_true]

theorem me_objGet_module (env : SynthEnv) (c e : Bool) (mode : Mode)
    (oht : Bool) (pkg : JObj) :
    objGet (esmStep env e mode oht (cjsStep env c mode oht pkg)) (cs "module") =
      (if e = true then some (esmModuleVal env mode) else objGet pkg (cs "module")) := by
  rw [esmStep_shape, cjsStep_shape]
  rw [objGet_condSet_ne _ _ _ _ _ (by decide)]
  cases e with
  | false =>
    simp only [condSet_false_eq, Bool.false_and]
    rw [objGet_condSet_ne _ _ _ _ _ (by decide),
        objGet_condSet_ne _ _ _ _ _ (by decide)]
    rfl
  | true =>
    simp only [Bool.true_and]
    rw [objGet_condSet_true]
    rfl

theorem me_objGet_types (env : SynthEnv) (c e : Bool) (mode : Mode)
    (oht : Bool) (pkg : JObj) :
    objGet (esmStep env e mode oht (cjsStep env c mode oht pkg)) (cs "types") =
      (if (e && esmTypesFlag env mode oht) = true then some (esmTypesVal env mode)
       else if (c && cjsTypesFlag env mode oht) = true then some (cjsTypesVal env mode)
       else objGet pkg (cs "types")) := by
  rw [esmStep_shape, cjsStep_shape]
  cases he : (e && esmTypesFlag env mode oht) with
  | true =>
    simp only [he, objGet_condSet_true, if_true]
  | false =>
    simp only [he, condSet_false_eq, Bool.false_eq_true, if_false]
    rw [objGet_condSet_ne _ _ _ _ _ (by decide)]
    cases hc : (c && cjsTypesFlag env mode oht) with
    | true => simp only [hc, objGet_condSet_true, if_true]
    | false =>
      simp only [hc, condSet_false_eq, Bool.false_eq_true, if_false]
      rw [objGet_condSet_ne _ _ _ _ _ (by decide)]

theorem me_objGet_other (env : SynthEnv) (c e : Bool) (mode : Mode)
    (oht : Bool) (pkg : JObj) (k : Str)
    (hm : k ≠ cs "main") (hmod : k ≠ cs "module") (ht : k ≠ cs "types") :
    objGet (esmStep env e mode oht (cjsStep env c mode oht pkg)) k =
      objGet pkg k := by
  rw [esmStep_shape, cjsStep_shape,
      objGet_condSet_ne _ _ _ _ _ ht, objGet_condSet_ne _ _ _ _ _ hmod,
      objGet_condSet_ne _ _ _ _ _ ht, objGet_condSet_ne _ _ _ _ _ hm]

end Libsync

namespace Libsync

theorem objGet_binStep_bin (env : SynthEnv) (c e : Bool) (mode : Mode)
    (pkg : JObj) :
    objGet (binStep env c e mode pkg) (cs "bin") =
      (match objGet pkg (cs "bin") with
       | none => none
       | some b => if jTruthy b then some (convertBinPaths env c e mode b)
                   else some b) := by
  unfold binStep
  cases h : objGet pkg (cs "bin") with
  | none => simp [h]
  | some b =>
    by_cases ht : jTruthy b = true
    · simp [h, ht, objGet_objSet_self]
    · simp only [Bool.not_eq_true] at ht
      simp [h, ht]

theorem objGet_exportsStep_exports (env : SynthEnv) (c e : Bool) (mode : Mode)
    (oht : Bool) (pkg : JObj) :
    objGet (exportsStep env c e mode oht pkg) (cs "exports") =
      some (.obj (objSet (moduleExportsOf env c e mode oht)
        (cs "./package.json") (.str (cs "./package.json")))) := by
  unfold exportsStep
  exact objGet_objSet_self _ _ _

theorem me_hasKey_types (env : SynthEnv) (c e : Bool) (mode : Mode)
    (pkg : JObj) :
    objHasKey (esmStep env e mode (objHasKey pkg (cs "types"))
      (cjsStep env c mode (objHasKey pkg (cs "types")) pkg)) (cs "types") =
      objHasKey pkg (cs "types") := by
  rw [objHasKey_eq_isSome, me_objGet_types]
  by_cases h1 : (e && esmTypesFlag env mode (objHasKey pkg (cs "types"))) = true
  · have hp := (Bool.and_eq_true _ _).mp h1
    have hoht : objHasKey pkg (cs "types") = true :=
      ((Bool.and_eq_true _ _).mp hp.2).1
    rw [hoht] at hp ⊢
    simp [hp.1, hp.2]
  · by_cases h2 : (c && cjsTypesFlag env mode (objHasKey pkg (cs "types"))) = true
    · have hp := (Bool.and_eq_true _ _).mp h2
      have hoht : objHasKey pkg (cs "types") = true :=
        ((Bool.and_eq_true _ _).mp hp.2).1
      rw [Bool.and_eq_true, hoht] at h1
      rw [hoht] at hp ⊢
      simp [h1, hp.1, hp.2]
    · rw [Bool.and_eq_true] at h1 h2
      simp [h1, h2, ← objHasKey_eq_isSome]

end Libsync

namespace Libsync

theorem synthPkg_hasKey_types (env : SynthEnv) (c e : Bool) (mode : Mode)
    (pkg : JObj) :
    objHasKey (synthPkg env c e mode pkg) (cs "types") =
      objHasKey pkg (cs "types") := by
  unfold synthPkg
  rw [objHasKey_eq_isSome, objGet_exportsStep_ne _ _ _ _ _ _ _ (by decide),
      objGet_binStep_ne _ _ _ _ _ _ (by decide), ← objHasKey_eq_isSome]
  exact me_hasKey_types env c e mode pkg

theorem synthPkg_idem (env : SynthEnv) (hwf : EnvWF env) (c e : Bool)
    (mode : Mode) (pkg : JObj) :
    synthPkg env c e mode (synthPkg env c e mode pkg) =
      synthPkg env c e mode pkg := by
  have hoht := synthPkg_hasKey_types env c e mode pkg
  set p' := synthPkg env c e mode pkg with hp'
  have hmainP : objGet p' (cs "main") =
      (if c = true then some (cjsMainVal env mode) else objGet pkg (cs "main")) := by
    rw [hp']
    unfold synthPkg
    rw [objGet_exportsStep_ne _ _ _ _ _ _ _ (by decide),
        objGet_binStep_ne _ _ _ _ _ _ (by decide), me_objGet_main]
  have hmoduleP : objGet p' (cs "module") =
      (if e = true then some (esmModuleVal env mode) else objGet pkg (cs "module")) := by
    rw [hp']
    unfold synthPkg
    rw [objGet_exportsStep_ne _ _ _ _ _ _ _ (by decide),
        objGet_binStep_ne _ _ _ _ _ _ (by decide), me_objGet_module]
  have htypesP : objGet p' (cs "types") =
      (if (e && esmTypesFlag env mode (objHasKey pkg (cs "types"))) = true then
        some (esmTypesVal env mode)
       else if (c && cjsTypesFlag env mode (objHasKey pkg (cs "types"))) = true then
        some (cjsTypesVal env mode)
       else objGet pkg (cs "types")) := by
    rw [hp']
    unfold synthPkg
    rw [objGet_exportsStep_ne _ _ _ _ _ _ _ (by decide),
        objGet_binStep_ne _ _ _ _ _ _ (by decide), me_objGet_types]
  have hbinP : objGet p' (cs "bin") =
      (match objGet pkg (cs "bin") with
       | none => none
       | some b => if jTruthy b then some (convertBinPaths env c e mode b)
                   else some b) := by
    rw [hp']
    unfold synthPkg
    rw [objGet_exportsStep_ne _ _ _ _ _ _ _ (by decide), objGet_binStep_bin,
        me_objGet_other _ _ _ _ _ _ _ (by decide) (by decide) (by decide)]
  have hexpP : objGet p' (cs "exports") =
      some (.obj (objSet (moduleExportsOf env c e mode (objHasKey pkg (cs "types")))
        (cs "./package.json") (.str (cs "./package.json")))) := by
    rw [hp']
    unfold synthPkg
    rw [objGet_exportsStep_exports]
  show exportsStep env c e mode (objHasKey p' (cs "types"))
      (binStep env c e mode (esmStep env e mode (objHasKey p' (cs "types"))
        (cjsStep env c mode (objHasKey p' (cs "types")) p'))) = p'
  rw [hoht]
  have hME : esmStep env e mode (objHasKey pkg (cs "types"))
      (cjsStep env c mode (objHasKey pkg (cs "types")) p') = p' := by
    rw [esmStep_shape, cjsStep_shape]
    apply condSet_chain_collapse p' c e
      (c && cjsTypesFlag env mode (objHasKey pkg (cs "types")))
      (e && esmTypesFlag env mode (objHasKey pkg (cs "types")))
      (cs "main") (cs "module") (cs "types")
      (cjsMainVal env mode) (esmModuleVal env mode)
      (cjsTypesVal env mode) (esmTypesVal env mode) (by decide)
    · intro hc
      rw [hmainP]
      simp [hc]
    · intro he
      rw [hmoduleP]
      simp [he]
    · intro h4
      rw [htypesP]
      simp [h4]
    · intro h3 h4
      rw [htypesP]
      simp [h3, h4]
  rw [hME]
  have hbin : binStep env c e mode p' = p' := by
    unfold binStep
    rw [hbinP]
    cases hb : objGet pkg (cs "bin") with
    | none => rfl
    | some b =>
      by_cases ht : jTruthy b = true
      · simp only [ht, if_true]
        by_cases ht2 : jTruthy (convertBinPaths env c e mode b) = true
        · simp only [ht2, if_true]
          rw [convertBinPaths_idem env hwf]
          apply objSet_eq_self_of_objGet
          rw [hbinP, hb]
          simp [ht]
        · simp only [Bool.not_eq_true] at ht2
          simp [ht2]
      · simp only [Bool.not_eq_true] at ht
        simp [ht]
  rw [hbin]
  unfold exportsStep
  apply objSet_eq_self_of_objGet
  exact hexpP

end Libsync

namespace Libsync

theorem synthPkg_hasKey_bin (env : SynthEnv) (c e : Bool) (mode : Mode)
    (pkg : JObj) :
    objHasKey (synthPkg env c e mode pkg) (cs "bin") =
      objHasKey pkg (cs "bin") := by
  unfold synthPkg
  rw [objHasKey_eq_isSome, objGet_exportsStep_ne _ _ _ _ _ _ _ (by decide),
      objGet_binStep_bin,
      me_objGet_other _ _ _ _ _ _ _ (by decide) (by decide) (by decide)]
  cases hb : objGet pkg (cs "bin") with
  | none =>
    rw [objHasKey_eq_isSome, hb]
  | some b =>
    by_cases ht : jTruthy b = true <;>
      simp [ht, objHasKey_eq_isSome, hb]

theorem wpjm_of_flags (env : SynthEnv) (mode : Mode) (checkMode : Bool)
    (disk : JObj) (hc he : Bool)
    (hsrc : env.fsExists (sourcePathOf env) = true)
    (hflags : getPackageBuildsFlags env.formatsCjs env.formatsEsm
      (objHasKey disk (cs "bin")) = .ok (hc, he)) :
    writePackageJsonModel env mode checkMode disk =
      (if serializePkg (synthPkg env hc he mode disk) = serializePkg disk then
        .ok ⟨disk, false, false⟩
      else if checkMode then .ok ⟨disk, false, true⟩
      else .ok ⟨synthPkg env hc he mode disk, true, false⟩) := by
  unfold writePackageJsonModel
  rw [if_neg (by simp [hsrc]), hflags]

/-! ## Claim C2 — conditional-export field order -/

/-- C2: for every export entry built by `writePackageJson`'s
`getExports` — in every mode — the conditional record's keys form a
subsequence of `types, import, require` (so the fields always appear in
that fixed order, each at most once); `types` is present only when the
original manifest declared a types field, `import` is present exactly
when the ESM format is enabled, and `require` exactly when the CJS
format is enabled. -/
theorem c2_export_conditional_field_order (env : SynthEnv)
    (hasCjs hasEsm : Bool) (mode : Mode) (oht : Bool) (path : Str) :
    List.Sublist
      ((wpjGetExports env hasCjs hasEsm mode oht path).map Prod.fst)
      [cs "types", cs "import", cs "require"] ∧
    (objHasKey (wpjGetExports env hasCjs hasEsm mode oht path)
        (cs "types") = true → oht = true) ∧
    objHasKey (wpjGetExports env hasCjs hasEsm mode oht path)
      (cs "import") = hasEsm ∧
    objHasKey (wpjGetExports env hasCjs hasEsm mode oht path)
      (cs "require") = hasCjs := by
  unfold wpjGetExports
  cases mode <;> cases oht <;> cases hasEsm <;> cases hasCjs <;>
    simp only [reduceCtorEq, ne_eq, not_false_iff, true_and, and_true,
      false_and, and_false, if_true, if_false, not_true,
      Bool.true_and, Bool.false_and, if_pos, if_neg] <;>
    (try split) <;> (try split) <;>
    simp [objSet, objHasKey, keyNe_import_types, keyNe_require_types,
      keyNe_require_import, keyNe_types_import, keyNe_types_require,
      keyNe_import_require]

/-- Witness for C2 at a concrete environment, mode and path. -/
theorem c2_export_conditional_field_order_witness :
    List.Sublist
      ((wpjGetExports witnessEnv true true Mode.production true
          (cs "pkg/src/util.ts")).map Prod.fst)
      [cs "types", cs "import", cs "require"] ∧
    (objHasKey (wpjGetExports witnessEnv true true Mode.production true
        (cs "pkg/src/util.ts")) (cs "types") = true → true = true) ∧
    objHasKey (wpjGetExports witnessEnv true true Mode.production true
      (cs "pkg/src/util.ts")) (cs "import") = true ∧
    objHasKey (wpjGetExports witnessEnv true true Mode.production true
      (cs "pkg/src/util.ts")) (cs "require") = true :=
  c2_export_conditional_field_order witnessEnv true true Mode.production true
    (cs "pkg/src/util.ts")

/-! ## Claim C4 — types-field policy -/

/-- C4: in every mode, the synthesizer writes the manifest's `types`
field only if the original on-disk manifest already declared one (a
manifest without a `types` key never gains one); in the probed
production modes it writes it only when the corresponding `.d.ts` file
exists on disk (otherwise the field is left untouched); and when
declaration files exist for the ESM output, the resulting path is the
ESM one — in particular ESM takes precedence when both exist, because
the ESM block runs after and overwrites the CJS block. -/
theorem c4_types_field_policy (env : SynthEnv) (hasCjs hasEsm : Bool)
    (mode : Mode) (pkg : JObj) :
    (objHasKey pkg (cs "types") = false →
      objGet (synthPkg env hasCjs hasEsm mode pkg) (cs "types") = none) ∧
    ((mode = Mode.production ∨ mode = Mode.productionTypes) →
      hasTypesFile env (pjoin env.cjsDir (cs "index")) = false →
      hasTypesFile env (pjoin env.esmDir (cs "index")) = false →
      objGet (synthPkg env hasCjs hasEsm mode pkg) (cs "types") =
        objGet pkg (cs "types")) ∧
    ((mode = Mode.production ∨ mode = Mode.productionTypes) →
      objHasKey pkg (cs "types") = true → hasEsm = true →
      hasTypesFile env (pjoin env.esmDir (cs "index")) = true →
      objGet (synthPkg env hasCjs hasEsm mode pkg) (cs "types") =
        some (.str (ensureRelativePath (pjoin env.esmDir (cs "index.d.ts"))))) := by
  have hsynth : objGet (synthPkg env hasCjs hasEsm mode pkg) (cs "types") =
      objGet (esmStep env hasEsm mode (objHasKey pkg (cs "types"))
        (cjsStep env hasCjs mode (objHasKey pkg (cs "types")) pkg)) (cs "types") := by
    unfold synthPkg
    rw [objGet_exportsStep_ne _ _ _ _ _ _ _ (by decide),
        objGet_binStep_ne _ _ _ _ _ _ (by decide)]
  refine ⟨?_, ?_, ?_⟩
  · intro h
    rw [hsynth, objGet_esmStep_types, objGet_cjsStep_types]
    simp [h, objGet_eq_none_of_not_hasKey pkg (cs "types") h]
  · intro hm h1 h2
    rw [hsynth, objGet_esmStep_types, objGet_cjsStep_types]
    rcases hm with hm | hm <;> subst hm <;> simp [h1, h2]
  · intro hm hoht hesm hts
    rw [hsynth, objGet_esmStep_types]
    rcases hm with hm | hm <;> subst hm <;> simp [hoht, hesm, hts]

/-- Witness for C4: at the concrete witness layout (both declaration
files on disk), the production-mode synthesis resolves `types` to the
ESM declaration file. -/
theorem c4_types_field_policy_witness :
    objGet (synthPkg witnessEnv true true Mode.production witnessPkg)
      (cs "types") =
      some (.str (ensureRelativePath (pjoin witnessEnv.esmDir (cs "index.d.ts")))) :=
  (c4_types_field_policy witnessEnv true true Mode.production witnessPkg).2.2
    (Or.inl rfl) (by decide) rfl (by decide)

/-! ## Claim C5 — ESM-only production scenario -/

/-- C5: with only the ESM format enabled, a manifest declaring `types`,
`esm/index.d.ts` on disk, and `esm/index.mjs` (but no `esm/index.js`),
the production-mode synthesis writes `module = "./esm/index.mjs"`,
`types = "./esm/index.d.ts"`, and no `main` field. -/
theorem c5_esm_only_production_scenario :
    (writePackageJsonModel c5Env Mode.production false c5Pkg).map
      (fun o => (objGet o.disk (cs "module"), objGet o.disk (cs "types"),
                 objHasKey o.disk (cs "main"), o.wrote)) =
    .ok (some (.str (cs "./esm/index.mjs")),
         some (.str (cs "./esm/index.d.ts")), false, true) := by
  rfl

/-! ## Claim C1 — idempotent synthesis, no-op second write -/

/-- C1: for a fixed source tree, configuration and mode (well-formed
directory names), running `writePackageJson` twice in a row with no
filesystem change produces a byte-identical manifest, and the second
invocation performs no write: the second serialized result equals the
first byte-for-byte and `writeFileSync` is not reached. -/
theorem c1_idempotent_synthesis_noop_second_write (env : SynthEnv) (hwf : EnvWF env) (mode : Mode) (disk : JObj)
    (r1 r2 : WriteOutcome)
    (h1 : writePackageJsonModel env mode false disk = .ok r1)
    (h2 : writePackageJsonModel env mode false r1.disk = .ok r2) :
    serializePkg r2.disk = serializePkg r1.disk ∧ r2.wrote = false := by
  by_cases hsrc : env.fsExists (sourcePathOf env) = true
  · cases hflags : getPackageBuildsFlags env.formatsCjs env.formatsEsm
        (objHasKey disk (cs "bin")) with
    | error err =>
      rw [writePackageJsonModel, if_neg (by simp [hsrc]), hflags] at h1
      exact absurd h1 (by simp)
    | ok flags =>
      rcases flags with ⟨hc, he⟩
      rw [wpjm_of_flags env mode false disk hc he hsrc hflags] at h1
      by_cases heq : serializePkg (synthPkg env hc he mode disk) = serializePkg disk
      · rw [if_pos heq] at h1
        have hr1 : r1 = ⟨disk, false, false⟩ := (Except.ok.inj h1).symm
        subst hr1
        rw [wpjm_of_flags env mode false disk hc he hsrc hflags,
            if_pos heq] at h2
        have hr2 : r2 = ⟨disk, false, false⟩ := (Except.ok.inj h2).symm
        subst hr2
        exact ⟨rfl, rfl⟩
      · rw [if_neg heq, if_neg (by simp)] at h1
        have hr1 : r1 = ⟨synthPkg env hc he mode disk, true, false⟩ :=
          (Except.ok.inj h1).symm
        subst hr1
        have hbin2 : objHasKey (synthPkg env hc he mode disk) (cs "bin") =
            objHasKey disk (cs "bin") := synthPkg_hasKey_bin env hc he mode disk
        have hflags2 : getPackageBuildsFlags env.formatsCjs env.formatsEsm
            (objHasKey (synthPkg env hc he mode disk) (cs "bin")) = .ok (hc, he) := by
          rw [hbin2]
          exact hflags
        rw [show (WriteOutcome.mk (synthPkg env hc he mode disk) true false).disk =
              synthPkg env hc he mode disk from rfl] at h2
        rw [wpjm_of_flags env mode false (synthPkg env hc he mode disk) hc he hsrc hflags2] at h2
        rw [synthPkg_idem env hwf hc he mode disk, if_pos rfl] at h2
        have hr2 : r2 = ⟨synthPkg env hc he mode disk, false, false⟩ :=
          (Except.ok.inj h2).symm
        subst hr2
        exact ⟨rfl, rfl⟩
  · rw [writePackageJsonModel, if_pos (by simp [hsrc])] at h1
    exact absurd h1 (by simp)

set_option maxRecDepth 4000 in
/-- Witness for C1 at the concrete witness environment: the first
production-mode run writes, the second is a byte-identical no-op. -/
theorem c1_idempotent_synthesis_noop_second_write_witness :
    serializePkg (WriteOutcome.mk c1WitnessDisk false false).disk =
      serializePkg (WriteOutcome.mk c1WitnessDisk true false).disk ∧
    (WriteOutcome.mk c1WitnessDisk false false).wrote = false :=
  c1_idempotent_synthesis_noop_second_write witnessEnv
    ⟨⟨by decide, by decide, by decide⟩, ⟨by decide, by decide, by decide⟩,
     ⟨by decide, by decide, by decide⟩, by decide, by decide, by decide⟩
    Mode.production witnessPkg ⟨c1WitnessDisk, true, false⟩
    ⟨c1WitnessDisk, false, false⟩ rfl rfl


/-! ## Suffix rewriting and the C3 round trip -/

theorem strEndsWith_append_self (W ext : Str) :
    strEndsWith (W ++ ext) ext = true := by
  unfold strEndsWith
  rw [List.isSuffixOf_iff_suffix]
  exact List.suffix_append W ext

theorem strEndsWith_append_ne (W ext cand : Str)
    (h1 : cand.isSuffixOf ext = false) (h2 : ext.isSuffixOf cand = false) :
    strEndsWith (W ++ ext) cand = false := by
  unfold strEndsWith
  by_contra hcon
  rw [Bool.not_eq_false, List.isSuffixOf_iff_suffix] at hcon
  have hext : ext <:+ W ++ ext := List.suffix_append W ext
  rcases List.suffix_or_suffix_of_suffix hcon hext with h | h
  · rw [← List.isSuffixOf_iff_suffix, h1] at h
    exact Bool.false_ne_true h
  · rw [← List.isSuffixOf_iff_suffix, h2] at h
    exact Bool.false_ne_true h

theorem strDropSuffix_append (W ext : Str) :
    strDropSuffix (W ++ ext) ext = W := by
  unfold strDropSuffix
  rw [List.length_append]
  have harith : W.length + ext.length - ext.length = W.length := by omega
  rw [harith, List.take_left]

theorem replaceSuffixAny_hit (cands : List Str) (repl W ext : Str)
    (hfind : cands.find? (fun c => strEndsWith (W ++ ext) c) = some ext) :
    replaceSuffixAny cands repl (W ++ ext) = W ++ repl := by
  unfold replaceSuffixAny
  rw [hfind]
  show strDropSuffix (W ++ ext) ext ++ repl = W ++ repl
  rw [strDropSuffix_append]

theorem replaceSuffixAny_miss (cands : List Str) (repl X : Str)
    (hfind : cands.find? (fun c => strEndsWith X c) = none) :
    replaceSuffixAny cands repl X = X := by
  unfold replaceSuffixAny
  rw [hfind]

theorem dropSuffixIf_append (W ext : Str) :
    dropSuffixIf (W ++ ext) ext = W := by
  unfold dropSuffixIf
  rw [strEndsWith_append_self, if_pos rfl, strDropSuffix_append]

theorem dirPath_prefix_self (A rest : Str) :
    strStartsWith (cs "./" ++ A ++ cs "/" ++ rest) (cs "./" ++ A ++ cs "/") = true := by
  unfold strStartsWith
  rw [List.isPrefixOf_iff_prefix]
  exact List.prefix_append _ _

theorem stripDirPrefix_dirPath (A rest : Str) :
    stripDirPrefix A (cs "./" ++ A ++ cs "/" ++ rest) = rest := by
  unfold stripDirPrefix
  rw [if_pos (by
    have h := dirPath_prefix_self A rest
    unfold strStartsWith at h
    exact h)]
  unfold strDropPrefix
  exact List.drop_left _ _

theorem convDev_strip_cjs (env : SynthEnv) (stem : Str) :
    convertPathToDevelopment env
      (cs "./" ++ env.cjsDir ++ cs "/" ++ (stem ++ cs ".cjs")) =
      cs "./" ++ env.sourceDir ++ cs "/" ++ stem ++
        getActualFileExtension env stem true := by
  unfold convertPathToDevelopment
  rw [if_neg (dirPath_ne_nil _ _)]
  have hnorm := ensureRelativePath_of_startsWith _
    (dirPath_startsWith_dotslash env.cjsDir (stem ++ cs ".cjs"))
  simp only [hnorm, dirPath_prefix_self, Bool.true_or, if_true]
  rw [stripDirPrefix_dirPath, dropSuffixIf_append]

theorem convDev_strip_esm (env : SynthEnv) (hwf : EnvWF env) (stem : Str) :
    convertPathToDevelopment env
      (cs "./" ++ env.esmDir ++ cs "/" ++ (stem ++ cs ".js")) =
      cs "./" ++ env.sourceDir ++ cs "/" ++ stem ++
        getActualFileExtension env stem true := by
  unfold convertPathToDevelopment
  rw [if_neg (dirPath_ne_nil _ _)]
  have hnorm := ensureRelativePath_of_startsWith _
    (dirPath_startsWith_dotslash env.esmDir (stem ++ cs ".js"))
  simp only [hnorm]
  rw [dirPath_d3 env.cjsDir env.esmDir hwf.cjsOk hwf.esmOk hwf.cjsEsm _,
      startsDot_not_dir env.cjsDir hwf.cjsOk _ (dirPath_startsWith_dotslash _ _)]
  simp only [Bool.or_self, Bool.false_eq_true, if_false,
    dirPath_prefix_self, Bool.true_or, if_true]
  rw [stripDirPrefix_dirPath, dropSuffixIf_append]

theorem find?_ext_cons_miss (W ext cand : Str) (rest : List Str)
    (h1 : cand.isSuffixOf ext = false) (h2 : ext.isSuffixOf cand = false) :
    (cand :: rest).find? (fun c => strEndsWith (W ++ ext) c) =
      rest.find? (fun c => strEndsWith (W ++ ext) c) := by
  apply List.find?_cons_of_neg
  simp [strEndsWith_append_ne W ext cand h1 h2]

theorem find?_ext_cons_hit (W ext : Str) (rest : List Str) :
    (ext :: rest).find? (fun c => strEndsWith (W ++ ext) c) = some ext := by
  apply List.find?_cons_of_pos
  simp [strEndsWith_append_self W ext]

/-- C3 (amended): the build/source path round-trip
`convertPathToDevelopment (convertPathToProduction p) = ensureRelativePath p`
holds for a source-rooted path `p` whose extension the resolver reports,
provided that extension is one the production rewrite recognises: one of
`.js .ts .mjs .mts .cjs .cts` when the CJS format is enabled, or one of
`.js .ts .mts .cts` when only the ESM format is enabled.  The original
claim, quantified over every source-rooted path, fails for extensions the
suffix regexes do not rewrite (for example `.jsx`), see the
counterexample. -/
theorem c3_round_trip_build_source (env : SynthEnv) (hwf : EnvWF env)
    (c e : Bool) (p stem ext : Str)
    (hnorm : ensureRelativePath p =
      cs "./" ++ env.sourceDir ++ cs "/" ++ (stem ++ ext))
    (hres : getActualFileExtension env stem true = ext)
    (hcap : (c = true ∧ ext ∈ cjsRewriteExts) ∨
        (c = false ∧ e = true ∧ ext ∈ cs ".js" :: esmRewriteExts)) :
    convertPathToDevelopment env (convertPathToProduction env c e p) =
      ensureRelativePath p := by
  have hp : p ≠ [] := by
    intro h
    subst h
    have hz : ensureRelativePath ([] : Str) = [] := by
      simp [ensureRelativePath]
    rw [hz] at hnorm
    exact dirPath_ne_nil env.sourceDir (stem ++ ext) hnorm.symm
  have hsrc : isSourcePathCheck env p
      (cs "./" ++ env.sourceDir ++ cs "/" ++ (stem ++ ext)) = true := by
    unfold isSourcePathCheck
    rw [dirPath_prefix_self]
    simp
  rcases hcap with ⟨hc, hmem⟩ | ⟨hc, he, hmem⟩
  · have hprod : convertPathToProduction env c e p =
        replaceSuffixAny cjsRewriteExts (cs ".cjs")
          (cs "./" ++ env.cjsDir ++ cs "/" ++ (stem ++ ext)) := by
      unfold convertPathToProduction
      rw [if_neg hp]
      simp only [hnorm, hsrc, Bool.not_true, Bool.false_eq_true, if_false,
        stripDirPrefix_dirPath, hc, if_true]
    have hX : cs "./" ++ env.cjsDir ++ cs "/" ++ (stem ++ ext) =
        (cs "./" ++ env.cjsDir ++ cs "/" ++ stem) ++ ext := by
      simp [List.append_assoc]
    have hfind : cjsRewriteExts.find?
        (fun cand => strEndsWith
          ((cs "./" ++ env.cjsDir ++ cs "/" ++ stem) ++ ext) cand) =
        some ext := by
      have hmem' : ext = cs ".js" ∨ ext = cs ".ts" ∨ ext = cs ".mjs" ∨
          ext = cs ".mts" ∨ ext = cs ".cjs" ∨ ext = cs ".cts" := by
        simpa [cjsRewriteExts] using hmem
      unfold cjsRewriteExts
      rcases hmem' with h|h|h|h|h|h <;> subst h
      · exact find?_ext_cons_hit _ _ _
      · rw [find?_ext_cons_miss _ _ _ _ (by decide) (by decide)]
        exact find?_ext_cons_hit _ _ _
      · rw [find?_ext_cons_miss _ _ _ _ (by decide) (by decide),
            find?_ext_cons_miss _ _ _ _ (by decide) (by decide)]
        exact find?_ext_cons_hit _ _ _
      · rw [find?_ext_cons_miss _ _ _ _ (by decide) (by decide),
            find?_ext_cons_miss _ _ _ _ (by decide) (by decide),
            find?_ext_cons_miss _ _ _ _ (by decide) (by decide)]
        exact find?_ext_cons_hit _ _ _
      · rw [find?_ext_cons_miss _ _ _ _ (by decide) (by decide),
            find?_ext_cons_miss _ _ _ _ (by decide) (by decide),
            find?_ext_cons_miss _ _ _ _ (by decide) (by decide),
            find?_ext_cons_miss _ _ _ _ (by decide) (by decide)]
        exact find?_ext_cons_hit _ _ _
      · rw [find?_ext_cons_miss _ _ _ _ (by decide) (by decide),
            find?_ext_cons_miss _ _ _ _ (by decide) (by decide),
            find?_ext_cons_miss _ _ _ _ (by decide) (by decide),
            find?_ext_cons_miss _ _ _ _ (by decide) (by decide),
            find?_ext_cons_miss _ _ _ _ (by decide) (by decide)]
        exact find?_ext_cons_hit _ _ _
    rw [hprod, hX, replaceSuffixAny_hit _ _ _ _ hfind]
    have hY : (cs "./" ++ env.cjsDir ++ cs "/" ++ stem) ++ cs ".cjs" =
        cs "./" ++ env.cjsDir ++ cs "/" ++ (stem ++ cs ".cjs") := by
      simp [List.append_assoc]
    rw [hY, convDev_strip_cjs env stem, hres, hnorm]
    simp [List.append_assoc]
  · have hprod : convertPathToProduction env c e p =
        replaceSuffixAny esmRewriteExts (cs ".js")
          (cs "./" ++ env.esmDir ++ cs "/" ++ (stem ++ ext)) := by
      unfold convertPathToProduction
      rw [if_neg hp]
      simp only [hnorm, hsrc, Bool.not_true, Bool.false_eq_true, if_false,
        stripDirPrefix_dirPath, hc, he, if_true]
    have hX : cs "./" ++ env.esmDir ++ cs "/" ++ (stem ++ ext) =
        (cs "./" ++ env.esmDir ++ cs "/" ++ stem) ++ ext := by
      simp [List.append_assoc]
    have hmem' : ext = cs ".js" ∨ ext = cs ".ts" ∨ ext = cs ".mts" ∨
        ext = cs ".cts" := by
      simpa [esmRewriteExts] using hmem
    rcases hmem' with h|h|h|h
    · subst h
      have hfind : esmRewriteExts.find?
          (fun cand => strEndsWith
            ((cs "./" ++ env.esmDir ++ cs "/" ++ stem) ++ cs ".js") cand) =
          none := by
        unfold esmRewriteExts
        rw [find?_ext_cons_miss _ _ _ _ (by decide) (by decide),
            find?_ext_cons_miss _ _ _ _ (by decide) (by decide),
            find?_ext_cons_miss _ _ _ _ (by decide) (by decide)]
        rfl
      rw [hprod, hX, replaceSuffixAny_miss _ _ _ hfind, ← hX,
          convDev_strip_esm env hwf stem, hres, hnorm]
      simp [List.append_assoc]
    · subst h
      have hfind : esmRewriteExts.find?
          (fun cand => strEndsWith
            ((cs "./" ++ env.esmDir ++ cs "/" ++ stem) ++ cs ".ts") cand) =
          some (cs ".ts") := by
        unfold esmRewriteExts
        exact find?_ext_cons_hit _ _ _
      rw [hprod, hX, replaceSuffixAny_hit _ _ _ _ hfind]
      have hY : (cs "./" ++ env.esmDir ++ cs "/" ++ stem) ++ cs ".js" =
          cs "./" ++ env.esmDir ++ cs "/" ++ (stem ++ cs ".js") := by
        simp [List.append_assoc]
      rw [hY, convDev_strip_esm env hwf stem, hres, hnorm]
      simp [List.append_assoc]
    · subst h
      have hfind : esmRewriteExts.find?
          (fun cand => strEndsWith
            ((cs "./" ++ env.esmDir ++ cs "/" ++ stem) ++ cs ".mts") cand) =
          some (cs ".mts") := by
        unfold esmRewriteExts
        rw [find?_ext_cons_miss _ _ _ _ (by decide) (by decide)]
        exact find?_ext_cons_hit _ _ _
      rw [hprod, hX, replaceSuffixAny_hit _ _ _ _ hfind]
      have hY : (cs "./" ++ env.esmDir ++ cs "/" ++ stem) ++ cs ".js" =
          cs "./" ++ env.esmDir ++ cs "/" ++ (stem ++ cs ".js") := by
        simp [List.append_assoc]
      rw [hY, convDev_strip_esm env hwf stem, hres, hnorm]
      simp [List.append_assoc]
    · subst h
      have hfind : esmRewriteExts.find?
          (fun cand => strEndsWith
            ((cs "./" ++ env.esmDir ++ cs "/" ++ stem) ++ cs ".cts") cand) =
          some (cs ".cts") := by
        unfold esmRewriteExts
        rw [find?_ext_cons_miss _ _ _ _ (by decide) (by decide),
            find?_ext_cons_miss _ _ _ _ (by decide) (by decide)]
        exact find?_ext_cons_hit _ _ _
      rw [hprod, hX, replaceSuffixAny_hit _ _ _ _ hfind]
      have hY : (cs "./" ++ env.esmDir ++ cs "/" ++ stem) ++ cs ".js" =
          cs "./" ++ env.esmDir ++ cs "/" ++ (stem ++ cs ".js") := by
        simp [List.append_assoc]
      rw [hY, convDev_strip_esm env hwf stem, hres, hnorm]
      simp [List.append_assoc]

/-- C3 counterexample: `./src/a.jsx` is rooted under the source
directory and the extension resolver reports its original extension
`.jsx`, yet the round trip returns `./src/a.jsx.js`, not `./src/a.jsx`:
the production rewrite regexes do not recognise `.jsx`, so the build
path keeps it, and the development conversion then appends the fallback
`.js` extension. -/
theorem c3_round_trip_counterexample :
    ensureRelativePath (cs "./src/a.jsx") =
        cs "./" ++ c3Env.sourceDir ++ cs "/" ++ (cs "a" ++ cs ".jsx") ∧
    getActualFileExtension c3Env (cs "a") true = cs ".jsx" ∧
    convertPathToDevelopment c3Env
        (convertPathToProduction c3Env true true (cs "./src/a.jsx")) =
      cs "./src/a.jsx.js" ∧
    (cs "./src/a.jsx.js" : Str) ≠ cs "./src/a.jsx" := by
  refine ⟨by decide, by decide, by decide, by decide⟩

/-- Witness: the amended round trip at the concrete path `./src/b.ts`
of the C3 environment. -/
theorem c3_round_trip_build_source_witness :
    convertPathToDevelopment c3Env
        (convertPathToProduction c3Env true true (cs "./src/b.ts")) =
      ensureRelativePath (cs "./src/b.ts") :=
  c3_round_trip_build_source c3Env
    ⟨⟨by decide, by decide, by decide⟩, ⟨by decide, by decide, by decide⟩,
     ⟨by decide, by decide, by decide⟩, by decide, by decide, by decide⟩
    true true (cs "./src/b.ts") (cs "b") (cs ".ts")
    (by decide) (by decide) (Or.inl ⟨rfl, by decide⟩)


/-! ## Scanner order-independence, emptiness, and index collapse -/

theorem ScanFSPerm.isDirF_eq {fs1 fs2 : ScanFS} (h : ScanFSPerm fs1 fs2)
    (p : Str) : isDirF fs1 p = isDirF fs2 p := by
  have hl := h.listingRel p
  unfold isDirF
  cases h1 : fs1.listing p <;> cases h2 : fs2.listing p <;>
    rw [h1, h2] at hl <;> simp at hl ⊢

theorem ScanFSPerm.fsEx_eq {fs1 fs2 : ScanFS} (h : ScanFSPerm fs1 fs2)
    (p : Str) : fsEx fs1 p = fsEx fs2 p := by
  unfold fsEx
  rw [h.isDirF_eq p, h.isFileEq p]

theorem sortStrs_eq_of_perm (l1 l2 : List Str) (h : l1.Perm l2) :
    sortStrs l1 = sortStrs l2 := by
  unfold sortStrs
  exact List.eq_of_perm_of_sorted
    ((List.perm_insertionSort _ l1).trans
      (h.trans (List.perm_insertionSort _ l2).symm))
    (List.sorted_insertionSort _ l1) (List.sorted_insertionSort _ l2)

theorem find?_eq_head_filter (p : α → Bool) (l : List α) :
    l.find? p = (l.filter p).head? := by
  induction l with
  | nil => rfl
  | cons a t ih =>
    by_cases h : p a = true
    · rw [List.find?_cons_of_pos _ h, List.filter_cons_of_pos h]
      rfl
    · rw [List.find?_cons_of_neg _ (by simp [h]),
          List.filter_cons_of_neg (by simp [h]), ih]

theorem perm_eq_of_length_le_one {l1 l2 : List α} (h : l1.Perm l2)
    (hl : l1.length ≤ 1) : l1 = l2 := by
  cases l1 with
  | nil => exact List.Perm.nil_eq h
  | cons a t =>
    cases t with
    | nil => exact (List.perm_singleton.mp h.symm).symm
    | cons b u => simp at hl

theorem perm_any_eq {l1 l2 : List α} (h : l1.Perm l2) (p : α → Bool) :
    l1.any p = l2.any p := by
  cases hb : l2.any p
  · rw [Bool.eq_false_iff]
    intro hc
    rw [List.any_eq_true] at hc
    rcases hc with ⟨x, hx, hp⟩
    have : l2.any p = true := List.any_eq_true.mpr ⟨x, h.mem_iff.mp hx, hp⟩
    rw [hb] at this
    exact Bool.false_ne_true this
  · rw [List.any_eq_true] at hb ⊢
    rcases hb with ⟨x, hx, hp⟩
    exact ⟨x, h.mem_iff.mpr hx, hp⟩

theorem foldlM_congr_steps {ε α β : Type} (f g : β → α → Except ε β)
    (l : List α) (b : β) (h : ∀ b a, f b a = g b a) :
    l.foldlM f b = l.foldlM g b := by
  induction l generalizing b with
  | nil => rfl
  | cons a t ih =>
    rw [List.foldlM_cons, List.foldlM_cons, h b a]
    cases g b a with
    | error e => rfl
    | ok b2 => simpa using ih b2

theorem shouldBuild_congr (se : ScanEnv) (fs1 fs2 : ScanFS)
    (hdir : ∀ p, isDirF fs1 p = isDirF fs2 p) (sp f pfx : Str) :
    shouldBuild se fs1 sp f pfx = shouldBuild se fs2 sp f pfx := by
  unfold shouldBuild
  rw [hdir]

theorem shouldExport_congr (se : ScanEnv) (fs1 fs2 : ScanFS)
    (hdir : ∀ p, isDirF fs1 p = isDirF fs2 p) (sp f pfx : Str) :
    shouldExport se fs1 sp f pfx = shouldExport se fs2 sp f pfx := by
  unfold shouldExport
  rw [hdir]

theorem buildStep_congr (fs1 fs2 : ScanFS)
    (hdir : ∀ p, isDirF fs1 p = isDirF fs2 p)
    (r1 r2 : Str → Str → Except ModelError (List (Str × Str)))
    (hr : ∀ p q, r1 p q = r2 p q) (sourcePath pfx : Str)
    (acc : List (Str × Str)) (filename : Str) :
    buildStep fs1 r1 sourcePath pfx acc filename =
      buildStep fs2 r2 sourcePath pfx acc filename := by
  simp only [buildStep]
  rw [hdir]
  by_cases h : isDirF fs2 (pjoin sourcePath filename) = true
  · rw [if_pos h, if_pos h, hr]
  · rw [if_neg h, if_neg h]

theorem publicStep_congr (fs1 fs2 : ScanFS) (hp : ScanFSPerm fs1 fs2)
    (hone : ∀ p l, fs1.listing p = some l →
      (l.filter isIndexName).length ≤ 1)
    (r1 r2 : Str → Str → Except ModelError (List (Str × Str)))
    (hr : ∀ p q, r1 p q = r2 p q) (sourcePath pfx : Str)
    (acc : List (Str × Str)) (filename : Str) :
    publicStep fs1 r1 sourcePath pfx acc filename =
      publicStep fs2 r2 sourcePath pfx acc filename := by
  simp only [publicStep]
  rw [hp.isDirF_eq]
  by_cases h : isDirF fs2 (pjoin sourcePath filename) = true
  · rw [if_pos h, if_pos h, hr]
    congr 1
    funext child
    have hrel := hp.listingRel (pjoin sourcePath filename)
    cases hl1 : fs1.listing (pjoin sourcePath filename) with
    | none =>
      have hd := hp.isDirF_eq (pjoin sourcePath filename)
      rw [h] at hd
      unfold isDirF at hd
      rw [hl1] at hd
      simp at hd
    | some l1 =>
      cases hl2 : fs2.listing (pjoin sourcePath filename) with
      | none =>
        unfold isDirF at h
        rw [hl2] at h
        simp at h
      | some l2 =>
        rw [hl1, hl2] at hrel
        have hany : l1.any isIndexName = l2.any isIndexName :=
          perm_any_eq hrel _
        have hfind : l1.find? isIndexName = l2.find? isIndexName := by
          rw [find?_eq_head_filter, find?_eq_head_filter,
              perm_eq_of_length_le_one (hrel.filter _) (hone _ _ hl1)]
        simp only [Option.getD_some]
        rw [hp.fsEx_eq, hany, hfind]
  · rw [if_neg h, if_neg h]

theorem getAllBuildFiles_perm_eq (se : ScanEnv) (fs1 fs2 : ScanFS)
    (hp : ScanFSPerm fs1 fs2) :
    ∀ fuel sourcePath pfx,
      getAllBuildFiles se fs1 fuel sourcePath pfx =
        getAllBuildFiles se fs2 fuel sourcePath pfx := by
  intro fuel
  induction fuel with
  | zero => intro sp pfx; rfl
  | succ n ih =>
    intro sp pfx
    rw [getAllBuildFiles, getAllBuildFiles]
    rw [hp.fsEx_eq sp]
    by_cases hex : fsEx fs2 sp = false
    · rw [if_pos hex, if_pos hex]
    · rw [if_neg hex, if_neg hex]
      by_cases hcli : pfx = [] ∧ se.pureCLI = true
      · rw [if_pos hcli, if_pos hcli]
        simp only [pureCliIndex, hp.fsEx_eq]
      · rw [if_neg hcli, if_neg hcli]
        have hrel := hp.listingRel sp
        cases hl1 : fs1.listing sp with
        | none =>
          cases hl2 : fs2.listing sp with
          | none => rfl
          | some l2 =>
            rw [hl1, hl2] at hrel
            simp at hrel
        | some l1 =>
          cases hl2 : fs2.listing sp with
          | none =>
            rw [hl1, hl2] at hrel
            simp at hrel
          | some l2 =>
            rw [hl1, hl2] at hrel
            have hsb : ∀ f, shouldBuild se fs1 sp f pfx =
                shouldBuild se fs2 sp f pfx :=
              fun f => shouldBuild_congr se fs1 fs2 hp.isDirF_eq sp f pfx
            have hfiles : sortStrs (l1.filter
                  (fun f => shouldBuild se fs1 sp f pfx)) =
                sortStrs (l2.filter (fun f => shouldBuild se fs2 sp f pfx)) := by
              have h1 : l1.filter (fun f => shouldBuild se fs1 sp f pfx) =
                  l1.filter (fun f => shouldBuild se fs2 sp f pfx) := by
                simp only [hsb]
              rw [h1]
              exact sortStrs_eq_of_perm _ _ (hrel.filter _)
            simp only [hfiles]
            by_cases hemp : sortStrs (l2.filter
                (fun f => shouldBuild se fs2 sp f pfx)) = [] ∧ pfx = []
            · rw [if_pos hemp, if_pos hemp]
            · rw [if_neg hemp, if_neg hemp]
              exact foldlM_congr_steps _ _ _ _
                (fun b a => buildStep_congr fs1 fs2 hp.isDirF_eq _ _
                  (fun p q => ih p q) sp pfx b a)

theorem getPublicFiles_perm_eq (se : ScanEnv) (fs1 fs2 : ScanFS)
    (hp : ScanFSPerm fs1 fs2)
    (hone : ∀ p l, fs1.listing p = some l →
      (l.filter isIndexName).length ≤ 1) :
    ∀ fuel sourcePath pfx,
      getPublicFiles se fs1 fuel sourcePath pfx =
        getPublicFiles se fs2 fuel sourcePath pfx := by
  intro fuel
  induction fuel with
  | zero => intro sp pfx; rfl
  | succ n ih =>
    intro sp pfx
    rw [getPublicFiles, getPublicFiles]
    rw [hp.fsEx_eq sp]
    by_cases hex : fsEx fs2 sp = false
    · rw [if_pos hex, if_pos hex]
    · rw [if_neg hex, if_neg hex]
      by_cases hcli : pfx = [] ∧ se.pureCLI = true
      · rw [if_pos hcli, if_pos hcli]
        simp only [pureCliIndex, hp.fsEx_eq]
      · rw [if_neg hcli, if_neg hcli]
        have hrel := hp.listingRel sp
        cases hl1 : fs1.listing sp with
        | none =>
          cases hl2 : fs2.listing sp with
          | none => rfl
          | some l2 =>
            rw [hl1, hl2] at hrel
            simp at hrel
        | some l1 =>
          cases hl2 : fs2.listing sp with
          | none =>
            rw [hl1, hl2] at hrel
            simp at hrel
          | some l2 =>
            rw [hl1, hl2] at hrel
            have hsb : ∀ f, shouldExport se fs1 sp f pfx =
                shouldExport se fs2 sp f pfx :=
              fun f => shouldExport_congr se fs1 fs2 hp.isDirF_eq sp f pfx
            have hfiles : sortStrs (l1.filter
                  (fun f => shouldExport se fs1 sp f pfx)) =
                sortStrs (l2.filter
                  (fun f => shouldExport se fs2 sp f pfx)) := by
              have h1 : l1.filter (fun f => shouldExport se fs1 sp f pfx) =
                  l1.filter (fun f => shouldExport se fs2 sp f pfx) := by
                simp only [hsb]
              rw [h1]
              exact sortStrs_eq_of_perm _ _ (hrel.filter _)
            simp only [hfiles]
            by_cases hemp : sortStrs (l2.filter
                (fun f => shouldExport se fs2 sp f pfx)) = [] ∧ pfx = []
            · rw [if_pos hemp, if_pos hemp]
            · rw [if_neg hemp, if_neg hemp]
              exact foldlM_congr_steps _ _ _ _
                (fun b a => publicStep_congr fs1 fs2 hp hone _ _
                  (fun p q => ih p q) sp pfx b a)

theorem c10wPerm : ScanFSPerm c10wFs1 c10wFs2 := by
  refine ⟨fun p => rfl, fun p => ?_⟩
  by_cases h : p = cs "r"
  · subst h
    have h1 : c10wFs1.listing (cs "r") = some [cs "b.ts", cs "a.ts"] := by decide
    have h2 : c10wFs2.listing (cs "r") = some [cs "a.ts", cs "b.ts"] := by decide
    rw [h1, h2]
    show List.Perm [cs "b.ts", cs "a.ts"] [cs "a.ts", cs "b.ts"]
    decide
  · have h1 : c10wFs1.listing p = none := by simp [c10wFs1, h]
    have h2 : c10wFs2.listing p = none := by simp [c10wFs2, h]
    rw [h1, h2]
    trivial

theorem c10Perm : ScanFSPerm c10Fs1 c10Fs2 := by
  refine ⟨fun p => rfl, fun p => ?_⟩
  by_cases h : p = cs "r"
  · subst h
    have h1 : c10Fs1.listing (cs "r") = some [cs "d"] := by decide
    have h2 : c10Fs2.listing (cs "r") = some [cs "d"] := by decide
    rw [h1, h2]
  · by_cases h2 : p = cs "r/d"
    · subst h2
      have h1 : c10Fs1.listing (cs "r/d") =
          some [cs "index.ts", cs "index.js"] := by decide
      have h2b : c10Fs2.listing (cs "r/d") =
          some [cs "index.js", cs "index.ts"] := by decide
      rw [h1, h2b]
      show List.Perm [cs "index.ts", cs "index.js"] [cs "index.js", cs "index.ts"]
      decide
    · have h1 : c10Fs1.listing p = none := by simp [c10Fs1, h, h2]
      have h2b : c10Fs2.listing p = none := by simp [c10Fs2, h, h2]
      rw [h1, h2b]
      trivial

/-- C10 (amended): the scanners' outputs are independent of the order
in which the filesystem enumerates directory entries.  For
`getAllBuildFiles` this holds unconditionally, because every listing is
filtered and sorted before the fold.  For `getPublicFiles` it holds
provided no directory holds two differently-named index files: the
directory-index collapse picks the index file with an unsorted
`readdirSync(path).find(...)` (package.js lines 712–714), so a
directory with both `index.ts` and `index.js` makes the chosen index —
and the resulting export map — depend on listing order, see the
counterexample. -/
theorem c10_scan_order_independent (se : ScanEnv) (fs1 fs2 : ScanFS)
    (hp : ScanFSPerm fs1 fs2) (fuel : Nat) (sourcePath pfx : Str) :
    getAllBuildFiles se fs1 fuel sourcePath pfx =
      getAllBuildFiles se fs2 fuel sourcePath pfx ∧
    ((∀ p l, fs1.listing p = some l →
        (l.filter isIndexName).length ≤ 1) →
      getPublicFiles se fs1 fuel sourcePath pfx =
        getPublicFiles se fs2 fuel sourcePath pfx) :=
  ⟨getAllBuildFiles_perm_eq se fs1 fs2 hp fuel sourcePath pfx,
   fun hone => getPublicFiles_perm_eq se fs1 fs2 hp hone fuel sourcePath pfx⟩

/-- C10 counterexample: two filesystems that list `r/d` — a directory
holding both `index.ts` and `index.js` — in opposite orders are
permutations of each other, yet `getPublicFiles` maps the export key
`d` to a different index file in each. -/
theorem c10_scan_order_counterexample :
    ScanFSPerm c10Fs1 c10Fs2 ∧
    getPublicFiles c10Se c10Fs1 2 (cs "r") [] =
      .ok [(cs "d", cs "r/d/index.ts")] ∧
    getPublicFiles c10Se c10Fs2 2 (cs "r") [] =
      .ok [(cs "d", cs "r/d/index.js")] ∧
    getPublicFiles c10Se c10Fs1 2 (cs "r") [] ≠
      getPublicFiles c10Se c10Fs2 2 (cs "r") [] :=
  ⟨c10Perm, by decide, by decide, by decide⟩

/-- Witness: the order-independence of both scanners at a concrete
two-file tree listed in opposite orders. -/
theorem c10_scan_order_independent_witness :
    getAllBuildFiles c10Se c10wFs1 1 (cs "r") [] =
      getAllBuildFiles c10Se c10wFs2 1 (cs "r") [] ∧
    getPublicFiles c10Se c10wFs1 1 (cs "r") [] =
      getPublicFiles c10Se c10wFs2 1 (cs "r") [] := by
  have h := c10_scan_order_independent c10Se c10wFs1 c10wFs2 c10wPerm 1 (cs "r") []
  refine ⟨h.1, h.2 ?_⟩
  intro p l hl
  by_cases hpr : p = cs "r"
  · subst hpr
    have h1 : c10wFs1.listing (cs "r") = some [cs "b.ts", cs "a.ts"] := by decide
    rw [h1, Option.some.injEq] at hl
    subst hl
    decide
  · have h1 : c10wFs1.listing p = none := by simp [c10wFs1, hpr]
    rw [h1] at hl
    exact absurd hl (by simp)

theorem objHasKey_append (a b : List (Str × α)) (k : Str) :
    objHasKey (a ++ b) k = (objHasKey a k || objHasKey b k) := by
  induction a with
  | nil => simp [objHasKey]
  | cons p rest ih =>
    simp [objHasKey, ih, Bool.or_assoc]

theorem objSet_fresh (o : List (Str × α)) (k : Str) (v : α)
    (h : objHasKey o k = false) : objSet o k v = o ++ [(k, v)] := by
  induction o with
  | nil => rfl
  | cons p rest ih =>
    unfold objHasKey at h
    rw [Bool.or_eq_false_iff] at h
    unfold objSet
    rw [if_neg (by
      intro hc
      rw [hc] at h
      simp at h)]
    rw [ih h.2]
    rfl

theorem objGet_objDelete_ne (o : List (Str × α)) (k k' : Str)
    (h : k ≠ k') : objGet (objDelete o k') k = objGet o k := by
  induction o with
  | nil => rfl
  | cons p rest ih =>
    unfold objDelete at ih ⊢
    by_cases hp : p.1 = k'
    · rw [List.filter_cons_of_neg (by simp [hp]), ih]
      have hr : objGet (p :: rest) k = objGet rest k := by
        unfold objGet
        rw [if_neg (by rw [hp]; exact fun hc => h hc.symm)]
        cases rest <;> rfl
      rw [hr]
    · rw [List.filter_cons_of_pos (by simp [hp])]
      unfold objGet
      by_cases hk : p.1 = k
      · rw [if_pos hk, if_pos hk]
      · rw [if_neg hk, if_neg hk, ih]

theorem objHasKey_objDelete_self (o : List (Str × α)) (k : Str) :
    objHasKey (objDelete o k) k = false := by
  induction o with
  | nil => rfl
  | cons p rest ih =>
    unfold objDelete at ih ⊢
    by_cases hp : p.1 = k
    · rw [List.filter_cons_of_neg (by simp [hp])]
      exact ih
    · rw [List.filter_cons_of_pos (by simp [hp])]
      unfold objHasKey
      rw [ih]
      simp [hp]

theorem foldl_objSet_fresh (t : List (Str × α)) :
    ∀ m : List (Str × α), t.Pairwise (fun a b => a.1 ≠ b.1) →
      (∀ p ∈ t, objHasKey m p.1 = false) →
      t.foldl (fun acc p => objSet acc p.1 p.2) m = m ++ t := by
  induction t with
  | nil => intro m _ _; simp
  | cons q t ih =>
    intro m hpw hm
    rw [List.pairwise_cons] at hpw
    rw [List.foldl_cons, objSet_fresh m q.1 q.2 (hm q (by simp)),
        ih (m ++ [(q.1, q.2)]) hpw.2 (fun p hp => by
          rw [objHasKey_append, hm p (by simp [hp])]
          simp [objHasKey, hpw.1 p hp])]
    simp

theorem objMerge_nil_left (acc : List (Str × α))
    (h : acc.Pairwise (fun a b => a.1 ≠ b.1)) : objMerge [] acc = acc := by
  unfold objMerge
  rw [foldl_objSet_fresh acc [] h (fun p _ => rfl)]
  rfl

theorem objMerge_nil_right (acc : List (Str × α)) : objMerge acc [] = acc := rfl

theorem bind_ok_eq {ε α β : Type} (a : α) (f : α → Except ε β) :
    (do let x ← (Except.ok a : Except ε α); f x) = f a := rfl

theorem getAllBuildFiles_listing (se : ScanEnv) (fs : ScanFS) (fuel : Nat)
    (sp pfx : Str) (entries : List Str)
    (hex : fsEx fs sp = true) (hcli : ¬(pfx = [] ∧ se.pureCLI = true))
    (hl : fs.listing sp = some entries) :
    getAllBuildFiles se fs (fuel+1) sp pfx =
      (if sortStrs (entries.filter (fun f => shouldBuild se fs sp f pfx)) = [] ∧
          pfx = [] then
        .error (.configuration (cs "No valid source files found"))
      else
        (sortStrs (entries.filter
            (fun f => shouldBuild se fs sp f pfx))).foldlM
          (buildStep fs (getAllBuildFiles se fs fuel) sp pfx) []) := by
  rw [getAllBuildFiles, if_neg (by rw [hex]; simp), if_neg hcli, hl]

theorem getPublicFiles_listing (se : ScanEnv) (fs : ScanFS) (fuel : Nat)
    (sp pfx : Str) (entries : List Str)
    (hex : fsEx fs sp = true) (hcli : ¬(pfx = [] ∧ se.pureCLI = true))
    (hl : fs.listing sp = some entries) :
    getPublicFiles se fs (fuel+1) sp pfx =
      (if sortStrs (entries.filter (fun f => shouldExport se fs sp f pfx)) = [] ∧
          pfx = [] then
        .error (.configuration (cs "No valid source files found"))
      else
        (sortStrs (entries.filter
            (fun f => shouldExport se fs sp f pfx))).foldlM
          (publicStep fs (getPublicFiles se fs fuel) sp pfx) []) := by
  rw [getPublicFiles, if_neg (by rw [hex]; simp), if_neg hcli, hl]

theorem scan_empty_subdir (se : ScanEnv) (fs : ScanFS) (fuel : Nat)
    (sub pfx : Str) (hpfx : pfx ≠ []) (hl : fs.listing sub = some []) :
    getAllBuildFiles se fs (fuel+1) sub pfx = .ok [] ∧
    getPublicFiles se fs (fuel+1) sub pfx = .ok [] := by
  have hex : fsEx fs sub = true := by
    unfold fsEx isDirF
    rw [hl]
    rfl
  have hcli : ¬(pfx = [] ∧ se.pureCLI = true) := fun hc => hpfx hc.1
  constructor
  · rw [getAllBuildFiles_listing se fs fuel sub pfx [] hex hcli hl,
        if_neg (fun hc => hpfx hc.2)]
    rfl
  · rw [getPublicFiles_listing se fs fuel sub pfx [] hex hcli hl,
        if_neg (fun hc => hpfx hc.2)]
    rfl

theorem buildStep_empty_dir (se : ScanEnv) (fs : ScanFS) (fuel : Nat)
    (sp pfx d : Str) (acc : List (Str × Str))
    (hl : fs.listing (pjoin sp d) = some [])
    (hpfxd : pjoin pfx d ≠ [])
    (hacc : acc.Pairwise (fun a b => a.1 ≠ b.1)) :
    buildStep fs (getAllBuildFiles se fs (fuel+1)) sp pfx acc d = .ok acc := by
  simp only [buildStep]
  rw [if_pos (by unfold isDirF; rw [hl]; rfl),
      (scan_empty_subdir se fs fuel (pjoin sp d) (pjoin pfx d) hpfxd hl).1,
      bind_ok_eq]
  show Except.ok (objMerge [] acc) = Except.ok acc
  rw [objMerge_nil_left acc hacc]

theorem publicStep_empty_dir (se : ScanEnv) (fs : ScanFS) (fuel : Nat)
    (sp pfx d : Str) (acc : List (Str × Str))
    (hl : fs.listing (pjoin sp d) = some [])
    (hpfxd : pjoin pfx d ≠ []) :
    publicStep fs (getPublicFiles se fs (fuel+1)) sp pfx acc d = .ok acc := by
  simp only [publicStep]
  rw [if_pos (by unfold isDirF; rw [hl]; rfl),
      (scan_empty_subdir se fs fuel (pjoin sp d) (pjoin pfx d) hpfxd hl).2,
      bind_ok_eq]
  simp only [hl, Option.getD_some, List.any_nil, Bool.and_false,
    Bool.false_eq_true, if_false]
  rfl

/-- C7: scanning a source root with zero eligible entries is a
`ConfigurationError` for both scanners; an eligible subdirectory with
an empty listing scans to the empty map with no error, and the fold
step over such a subdirectory returns the accumulator unchanged, so
the subdirectory is absent from both the build-file map and the export
map. -/
theorem c7_empty_root_error_empty_subdir_ok (se : ScanEnv) (fs : ScanFS) (fuel : Nat)
    (hpure : se.pureCLI = false) :
    (∀ sp entries, fsEx fs sp = true → fs.listing sp = some entries →
      entries.filter (fun f => shouldBuild se fs sp f []) = [] →
      getAllBuildFiles se fs (fuel+1) sp [] =
        .error (.configuration (cs "No valid source files found"))) ∧
    (∀ sp entries, fsEx fs sp = true → fs.listing sp = some entries →
      entries.filter (fun f => shouldExport se fs sp f []) = [] →
      getPublicFiles se fs (fuel+1) sp [] =
        .error (.configuration (cs "No valid source files found"))) ∧
    (∀ sub pfx, pfx ≠ [] → fs.listing sub = some [] →
      getAllBuildFiles se fs (fuel+1) sub pfx = .ok [] ∧
      getPublicFiles se fs (fuel+1) sub pfx = .ok []) ∧
    (∀ sp pfx d acc, fs.listing (pjoin sp d) = some [] → pjoin pfx d ≠ [] →
      acc.Pairwise (fun a b => a.1 ≠ b.1) →
      buildStep fs (getAllBuildFiles se fs (fuel+1)) sp pfx acc d = .ok acc ∧
      publicStep fs (getPublicFiles se fs (fuel+1)) sp pfx acc d = .ok acc) := by
  have hcli : ∀ pfx : Str, ¬(pfx = [] ∧ se.pureCLI = true) := by
    intro pfx hc
    rw [hpure] at hc
    exact Bool.false_ne_true hc.2
  refine ⟨?_, ?_, ?_, ?_⟩
  · intro sp entries hex hl hfil
    rw [getAllBuildFiles_listing se fs fuel sp [] entries hex (hcli []) hl,
        hfil, if_pos ⟨rfl, rfl⟩]
  · intro sp entries hex hl hfil
    rw [getPublicFiles_listing se fs fuel sp [] entries hex (hcli []) hl,
        hfil, if_pos ⟨rfl, rfl⟩]
  · intro sub pfx hpfx hl
    exact scan_empty_subdir se fs fuel sub pfx hpfx hl
  · intro sp pfx d acc hl hpfxd hacc
    exact ⟨buildStep_empty_dir se fs fuel sp pfx d acc hl hpfxd hacc,
           publicStep_empty_dir se fs fuel sp pfx d acc hl hpfxd⟩

/-- Witness: the C7 behaviours at a concrete tree with an empty root
and an empty subdirectory. -/
theorem c7_empty_root_error_empty_subdir_ok_witness :
    getAllBuildFiles c7Se c7Fs 1 (cs "r") [] =
      .error (.configuration (cs "No valid source files found")) ∧
    getPublicFiles c7Se c7Fs 1 (cs "r") [] =
      .error (.configuration (cs "No valid source files found")) ∧
    getAllBuildFiles c7Se c7Fs 1 (cs "r/e") (cs "e") = .ok [] ∧
    getPublicFiles c7Se c7Fs 1 (cs "r/e") (cs "e") = .ok [] ∧
    buildStep c7Fs (getAllBuildFiles c7Se c7Fs 1) (cs "r") (cs "p")
      [(cs "k", cs "v")] (cs "e") = .ok [(cs "k", cs "v")] ∧
    publicStep c7Fs (getPublicFiles c7Se c7Fs 1) (cs "r") (cs "p")
      [(cs "k", cs "v")] (cs "e") = .ok [(cs "k", cs "v")] := by
  have h := c7_empty_root_error_empty_subdir_ok c7Se c7Fs 0 (by decide)
  exact ⟨h.1 (cs "r") [] (by decide) (by decide) (by decide),
    h.2.1 (cs "r") [] (by decide) (by decide) (by decide),
    (h.2.2.1 (cs "r/e") (cs "e") (by decide) (by decide)).1,
    (h.2.2.1 (cs "r/e") (cs "e") (by decide) (by decide)).2,
    (h.2.2.2 (cs "r") (cs "p") (cs "e") [(cs "k", cs "v")]
      (by decide) (by decide) (by decide)).1,
    (h.2.2.2 (cs "r") (cs "p") (cs "e") [(cs "k", cs "v")]
      (by decide) (by decide) (by decide)).2⟩

theorem publicStep_with_index (fs : ScanFS)
    (recur : Str → Str → Except ModelError (List (Str × Str)))
    (sp pfx d : Str) (acc child : List (Str × Str)) (l : List Str) (idx : Str)
    (hl : fs.listing (pjoin sp d) = some l)
    (hfind : l.find? isIndexName = some idx)
    (hrec : recur (pjoin sp d) (pjoin pfx d) = .ok child) :
    publicStep fs recur sp pfx acc d =
      .ok (objDelete
        (objSet (objMerge acc child) (normalizePath (pjoin pfx d))
          (normalizePath (pjoin (pjoin sp d) idx)))
        (normalizePath (pjoin (pjoin pfx d) (cs "index")))) := by
  have hany : l.any isIndexName = true :=
    List.any_eq_true.mpr ⟨idx, List.mem_of_find?_eq_some hfind,
      List.find?_some hfind⟩
  have hexd : fsEx fs (pjoin sp d) = true := by
    unfold fsEx isDirF
    rw [hl]
    rfl
  simp only [publicStep]
  rw [if_pos (by unfold isDirF; rw [hl]; rfl), hrec, bind_ok_eq]
  simp only [hl, Option.getD_some, hany, hexd, Bool.and_self, if_true, hfind]
  rfl

theorem publicStep_no_index (fs : ScanFS)
    (recur : Str → Str → Except ModelError (List (Str × Str)))
    (sp pfx d : Str) (acc child : List (Str × Str)) (l : List Str)
    (hl : fs.listing (pjoin sp d) = some l)
    (hnone : l.any isIndexName = false)
    (hrec : recur (pjoin sp d) (pjoin pfx d) = .ok child) :
    publicStep fs recur sp pfx acc d = .ok (objMerge acc child) := by
  simp only [publicStep]
  rw [if_pos (by unfold isDirF; rw [hl]; rfl), hrec, bind_ok_eq]
  simp only [hl, Option.getD_some, hnone, Bool.and_false,
    Bool.false_eq_true, if_false]
  rfl

theorem foldlM_publicStep_leaf (fs : ScanFS)
    (recur : Str → Str → Except ModelError (List (Str × Str)))
    (sub pfx2 : Str) (files : List Str) :
    ∀ m : List (Str × Str),
      (∀ f ∈ files, isDirF fs (pjoin sub f) = false) →
      (files.map (fun f => removeExt (normalizePath (pjoin pfx2 f)))).Nodup →
      (∀ f ∈ files,
        objHasKey m (removeExt (normalizePath (pjoin pfx2 f))) = false) →
      files.foldlM (publicStep fs recur sub pfx2) m =
        .ok (m ++ files.map (fun f =>
          (removeExt (normalizePath (pjoin pfx2 f)),
           normalizePath (pjoin sub f)))) := by
  induction files with
  | nil =>
    intro m _ _ _
    simp only [List.map_nil, List.append_nil, List.foldlM_nil]
    rfl
  | cons f t ih =>
    intro m hdir hnodup hm
    rw [List.map_cons, List.nodup_cons] at hnodup
    have hstep : publicStep fs recur sub pfx2 m f =
        .ok (objSet m (removeExt (normalizePath (pjoin pfx2 f)))
          (normalizePath (pjoin sub f))) := by
      simp only [publicStep]
      rw [if_neg (by rw [hdir f (by simp)]; simp)]
      rfl
    rw [List.foldlM_cons, hstep, bind_ok_eq,
        objSet_fresh m _ _ (hm f (by simp)),
        ih _ (fun g hg => hdir g (by simp [hg])) hnodup.2
          (fun g hg => by
            rw [objHasKey_append, hm g (by simp [hg])]
            simp [objHasKey]
            intro hc
            exact absurd (hc ▸ List.mem_map_of_mem _ hg) hnodup.1)]
    simp [List.append_assoc]

theorem getPublicFiles_leaf_dir (se : ScanEnv) (fs : ScanFS) (fuel : Nat)
    (sub pfx2 : Str) (l : List Str)
    (hpfx : pfx2 ≠ []) (hl : fs.listing sub = some l)
    (hdir : ∀ f ∈ sortStrs (l.filter (fun f => shouldExport se fs sub f pfx2)),
      isDirF fs (pjoin sub f) = false)
    (hnodup : ((sortStrs (l.filter
        (fun f => shouldExport se fs sub f pfx2))).map
      (fun f => removeExt (normalizePath (pjoin pfx2 f)))).Nodup) :
    getPublicFiles se fs (fuel+1) sub pfx2 =
      .ok ((sortStrs (l.filter (fun f => shouldExport se fs sub f pfx2))).map
        (fun f => (removeExt (normalizePath (pjoin pfx2 f)),
          normalizePath (pjoin sub f)))) := by
  have hex : fsEx fs sub = true := by
    unfold fsEx isDirF
    rw [hl]
    rfl
  rw [getPublicFiles_listing se fs fuel sub pfx2 l hex
        (fun hc => hpfx hc.1) hl,
      if_neg (fun hc => hpfx hc.2),
      foldlM_publicStep_leaf fs _ sub pfx2 _ [] hdir hnodup
        (fun f _ => rfl)]
  rw [List.nil_append]

/-- C6: the directory-index collapse.  A scanned directory `d` whose
listing holds an index file yields, at its fold step, a map holding the
directory's own key `prefix/d` bound to that index file and no
`prefix/d/index` key (the explicit index export is deleted); a
directory without an index file merges its recursive exports
unchanged, and a directory of plain files exports each file under its
extension-stripped qualified name. -/
theorem c6_directory_index_collapse (se : ScanEnv) (fs : ScanFS) (fuel : Nat) :
    (∀ (sp pfx d : Str) (acc child : List (Str × Str)) (l : List Str)
      (idx : Str)
      (recur : Str → Str → Except ModelError (List (Str × Str))),
      fs.listing (pjoin sp d) = some l →
      l.find? isIndexName = some idx →
      recur (pjoin sp d) (pjoin pfx d) = .ok child →
      normalizePath (pjoin pfx d) ≠
        normalizePath (pjoin (pjoin pfx d) (cs "index")) →
      ∃ res, publicStep fs recur sp pfx acc d = .ok res ∧
        objGet res (normalizePath (pjoin pfx d)) =
          some (normalizePath (pjoin (pjoin sp d) idx)) ∧
        objHasKey res
          (normalizePath (pjoin (pjoin pfx d) (cs "index"))) = false) ∧
    (∀ (sp pfx d : Str) (acc child : List (Str × Str)) (l : List Str)
      (recur : Str → Str → Except ModelError (List (Str × Str))),
      fs.listing (pjoin sp d) = some l →
      l.any isIndexName = false →
      recur (pjoin sp d) (pjoin pfx d) = .ok child →
      publicStep fs recur sp pfx acc d = .ok (objMerge acc child)) ∧
    (∀ (sub pfx2 : Str) (l : List Str), pfx2 ≠ [] →
      fs.listing sub = some l →
      (∀ f ∈ sortStrs (l.filter (fun f => shouldExport se fs sub f pfx2)),
        isDirF fs (pjoin sub f) = false) →
      ((sortStrs (l.filter (fun f => shouldExport se fs sub f pfx2))).map
        (fun f => removeExt (normalizePath (pjoin pfx2 f)))).Nodup →
      getPublicFiles se fs (fuel+1) sub pfx2 =
        .ok ((sortStrs (l.filter
            (fun f => shouldExport se fs sub f pfx2))).map
          (fun f => (removeExt (normalizePath (pjoin pfx2 f)),
            normalizePath (pjoin sub f))))) := by
  refine ⟨?_, ?_, ?_⟩
  · intro sp pfx d acc child l idx recur hl hfind hrec hne
    refine ⟨_, publicStep_with_index fs recur sp pfx d acc child l idx
      hl hfind hrec, ?_, ?_⟩
    · rw [objGet_objDelete_ne _ _ _ hne, objGet_objSet_self]
    · exact objHasKey_objDelete_self _ _
  · intro sp pfx d acc child l recur hl hnone hrec
    exact publicStep_no_index fs recur sp pfx d acc child l hl hnone hrec
  · intro sub pfx2 l hpfx hl hdir hnodup
    exact getPublicFiles_leaf_dir se fs fuel sub pfx2 l hpfx hl hdir hnodup

/-- Witness: the C6 behaviours at a concrete tree where `r/foo` holds
an index file and `r/bar` does not. -/
theorem c6_directory_index_collapse_witness :
    (∃ res, publicStep c6Fs (getPublicFiles c6Se c6Fs 1) (cs "r") [] []
        (cs "foo") = .ok res ∧
      objGet res (normalizePath (pjoin [] (cs "foo"))) =
        some (normalizePath (pjoin (pjoin (cs "r") (cs "foo"))
          (cs "index.ts"))) ∧
      objHasKey res
        (normalizePath (pjoin (pjoin [] (cs "foo")) (cs "index"))) = false) ∧
    publicStep c6Fs (getPublicFiles c6Se c6Fs 1) (cs "r") [] [] (cs "bar") =
      .ok (objMerge [] [(cs "bar/y", cs "r/bar/y.ts")]) ∧
    getPublicFiles c6Se c6Fs 1 (cs "r/bar") (cs "bar") =
      .ok ((sortStrs ([cs "y.ts"].filter
          (fun f => shouldExport c6Se c6Fs (cs "r/bar") f (cs "bar")))).map
        (fun f => (removeExt (normalizePath (pjoin (cs "bar") f)),
          normalizePath (pjoin (cs "r/bar") f)))) := by
  have h := c6_directory_index_collapse c6Se c6Fs 0
  exact ⟨h.1 (cs "r") [] (cs "foo") []
      [(cs "foo/index", cs "r/foo/index.ts"), (cs "foo/x", cs "r/foo/x.ts")]
      [cs "index.ts", cs "x.ts"] (cs "index.ts") (getPublicFiles c6Se c6Fs 1)
      (by decide) (by decide) (by decide) (by decide),
    h.2.1 (cs "r") [] (cs "bar") [] [(cs "bar/y", cs "r/bar/y.ts")]
      [cs "y.ts"] (getPublicFiles c6Se c6Fs 1)
      (by decide) (by decide) (by decide),
    h.2.2 (cs "r/bar") (cs "bar") [cs "y.ts"]
      (by decide) (by decide) (by decide) (by decide)⟩


/-! ## Submodule manifest shape -/

/-- C8 counterexample: with declaration files present for both build
outputs of submodule `sub`, the production proxy manifest's `types`
points at the CJS declaration file while the root manifest synthesized
for the same mode points at the ESM one (and the `production-types`
proxy also prefers ESM) — the proxy does not resolve `types` to the
target the root manifest would use. -/
theorem c8_production_types_precedence_counterexample :
    objHasKey c8Pkg (cs "types") = true ∧
    hasTypesFile c8Env (pjoin c8Env.esmDir (cs "sub")) = true ∧
    hasTypesFile c8Env (pjoin c8Env.cjsDir (cs "sub")) = true ∧
    objGet (generateProxyPackageJson c8Env c8Pkg true true (cs "sub")
      (cs "sub") Mode.production) (cs "types") =
      some (.str (cs "../cjs/sub.d.ts")) ∧
    objGet (synthPkg c8Env true true Mode.production c8Pkg) (cs "types") =
      some (.str (cs "./esm/index.d.ts")) ∧
    objGet (generateProxyPackageJson c8Env c8Pkg true true (cs "sub")
      (cs "sub") Mode.productionTypes) (cs "types") =
      some (.str (cs "../esm/sub.d.ts")) :=
  ⟨rfl, rfl, rfl, rfl, rfl, rfl⟩

theorem genProxy_production_shape (env : SynthEnv) (pkg : JObj)
    (c e : Bool) (mn path : Str) :
    generateProxyPackageJson env pkg c e mn path Mode.production =
      condSet (c && (objHasKey pkg (cs "types") &&
          hasTypesFile env (pjoin env.cjsDir path))) (cs "types")
        (.str (pjoin3 (repeatStr (segCount mn) (cs "../")) env.cjsDir
          (path ++ cs ".d.ts")))
        (condSet c (cs "main")
          (.str (pjoin3 (repeatStr (segCount mn) (cs "../")) env.cjsDir
            (path ++ getActualFileExtension env (pjoin env.cjsDir path) false)))
          (condSet (e && (objHasKey pkg (cs "types") &&
              hasTypesFile env (pjoin env.esmDir path))) (cs "types")
            (.str (pjoin3 (repeatStr (segCount mn) (cs "../")) env.esmDir
              (path ++ cs ".d.ts")))
            (condSet e (cs "module")
              (.str (pjoin3 (repeatStr (segCount mn) (cs "../")) env.esmDir
                (path ++ getActualFileExtension env (pjoin env.esmDir path)
                  false)))
              (proxyBase pkg mn)))) := by
  simp only [generateProxyPackageJson]
  by_cases hc : c = true <;> by_cases he : e = true <;>
    by_cases h1 : (objHasKey pkg (cs "types") &&
      hasTypesFile env (pjoin env.esmDir path)) = true <;>
    by_cases h2 : (objHasKey pkg (cs "types") &&
      hasTypesFile env (pjoin env.cjsDir path)) = true <;>
    simp [hc, he, h1, h2, condSet]

theorem genProxy_productionTypes_shape (env : SynthEnv) (pkg : JObj)
    (c e : Bool) (mn path : Str) :
    generateProxyPackageJson env pkg c e mn path Mode.productionTypes =
      condSet (objHasKey pkg (cs "types") && (e &&
          hasTypesFile env (pjoin env.esmDir path))) (cs "types")
        (.str (pjoin3 (repeatStr (segCount mn) (cs "../")) env.esmDir
          (path ++ cs ".d.ts")))
        (condSet (objHasKey pkg (cs "types") &&
            (!(e && hasTypesFile env (pjoin env.esmDir path)) &&
             (c && hasTypesFile env (pjoin env.cjsDir path)))) (cs "types")
          (.str (pjoin3 (repeatStr (segCount mn) (cs "../")) env.cjsDir
            (path ++ cs ".d.ts")))
          (condSet e (cs "module")
            (.str (pjoin3 (repeatStr (segCount mn) (cs "../")) env.sourceDir
              (path ++ getActualFileExtension env path true)))
            (condSet c (cs "main")
              (.str (pjoin3 (repeatStr (segCount mn) (cs "../"))
                env.sourceDir (path ++ getActualFileExtension env path true)))
              (proxyBase pkg mn)))) := by
  simp only [generateProxyPackageJson]
  by_cases hc : c = true <;> by_cases he : e = true <;>
    by_cases ht : objHasKey pkg (cs "types") = true <;>
    by_cases h1 : hasTypesFile env (pjoin env.esmDir path) = true <;>
    by_cases h2 : hasTypesFile env (pjoin env.cjsDir path) = true <;>
    simp [hc, he, ht, h1, h2, condSet]

theorem genProxy_development_shape (env : SynthEnv) (pkg : JObj)
    (c e : Bool) (mn path : Str) :
    generateProxyPackageJson env pkg c e mn path Mode.development =
      condSet (objHasKey pkg (cs "types")) (cs "types")
        (.str (pjoin3 (repeatStr (segCount mn) (cs "../")) env.sourceDir
          (path ++ getActualFileExtension env path true)))
        (objSet (objSet (proxyBase pkg mn) (cs "main")
            (.str (pjoin3 (repeatStr (segCount mn) (cs "../")) env.sourceDir
              (path ++ getActualFileExtension env path true))))
          (cs "module")
          (.str (pjoin3 (repeatStr (segCount mn) (cs "../")) env.sourceDir
            (path ++ getActualFileExtension env path true)))) := by
  simp only [generateProxyPackageJson]
  by_cases ht : objHasKey pkg (cs "types") = true <;>
    simp [ht, condSet]

theorem objHasKey_objSet_or (o : List (Str × α)) (k k' : Str) (v : α)
    (h : objHasKey (objSet o k v) k' = true) :
    k' = k ∨ objHasKey o k' = true := by
  by_cases hk : k' = k
  · exact Or.inl hk
  · right
    rwa [objHasKey_objSet_ne o k k' v hk] at h

theorem objHasKey_condSet_or (b : Bool) (k k' : Str) (v : JVal) (o : JObj)
    (h : objHasKey (condSet b k v o) k' = true) :
    k' = k ∨ objHasKey o k' = true := by
  cases b
  · rw [condSet_false_eq] at h
    exact Or.inr h
  · simp only [condSet, if_true] at h
    exact objHasKey_objSet_or o k k' v h

theorem proxyBase_keys (pkg : JObj) (mn k : Str)
    (h : objHasKey (proxyBase pkg mn) k = true) :
    k = cs "name" ∨ k = cs "private" ∨ k = cs "sideEffects" := by
  simp [proxyBase, objHasKey] at h
  rcases h with h|h|h
  · exact Or.inl h.symm
  · exact Or.inr (Or.inl h.symm)
  · exact Or.inr (Or.inr h.symm)

/-- C8 (amended): the shape of a generated submodule manifest.  Every
proxy manifest holds `name` (the package name joined with the submodule
name), `private: true`, `sideEffects: false`, and no key beyond those
plus `main`/`module`/`types`; the `main`/`module`/`types` paths are
prefixed by `../` repeated once per path segment of the submodule name
and are mode-appropriate, except that in `production` mode the `types`
field follows CJS-over-ESM precedence (the `cjs` block overwrites the
`esm` assignment, package.js lines 1825–1836), the opposite of the root
manifest's ESM precedence — see the counterexample.  `getProxyFolders`
maps each export entry to a key with any trailing `/index` stripped and
drops the root `index` key. -/
theorem c8_submodule_manifest_fields (env : SynthEnv) (pkg : JObj) (c e : Bool)
    (mn path : Str) (mode : Mode) :
    (objGet (generateProxyPackageJson env pkg c e mn path mode) (cs "name") =
        some (.str (jStrOf (objGet pkg (cs "name")) ++ cs "/" ++ mn)) ∧
      objGet (generateProxyPackageJson env pkg c e mn path mode)
        (cs "private") = some (.bool true) ∧
      objGet (generateProxyPackageJson env pkg c e mn path mode)
        (cs "sideEffects") = some (.bool false)) ∧
    (∀ k, objHasKey (generateProxyPackageJson env pkg c e mn path mode) k =
        true →
      k = cs "name" ∨ k = cs "private" ∨ k = cs "sideEffects" ∨
      k = cs "main" ∨ k = cs "module" ∨ k = cs "types") ∧
    (mode = Mode.development →
      objGet (generateProxyPackageJson env pkg c e mn path mode) (cs "main") =
        some (.str (pjoin3 (repeatStr (segCount mn) (cs "../"))
          env.sourceDir (path ++ getActualFileExtension env path true))) ∧
      objGet (generateProxyPackageJson env pkg c e mn path mode)
        (cs "module") =
        some (.str (pjoin3 (repeatStr (segCount mn) (cs "../"))
          env.sourceDir (path ++ getActualFileExtension env path true))) ∧
      objGet (generateProxyPackageJson env pkg c e mn path mode)
        (cs "types") =
        (if objHasKey pkg (cs "types") then
          some (.str (pjoin3 (repeatStr (segCount mn) (cs "../"))
            env.sourceDir (path ++ getActualFileExtension env path true)))
        else none)) ∧
    (mode = Mode.productionTypes →
      objGet (generateProxyPackageJson env pkg c e mn path mode) (cs "main") =
        (if c then
          some (.str (pjoin3 (repeatStr (segCount mn) (cs "../"))
            env.sourceDir (path ++ getActualFileExtension env path true)))
        else none) ∧
      objGet (generateProxyPackageJson env pkg c e mn path mode)
        (cs "module") =
        (if e then
          some (.str (pjoin3 (repeatStr (segCount mn) (cs "../"))
            env.sourceDir (path ++ getActualFileExtension env path true)))
        else none) ∧
      objGet (generateProxyPackageJson env pkg c e mn path mode)
        (cs "types") =
        (if objHasKey pkg (cs "types") && (e &&
            hasTypesFile env (pjoin env.esmDir path)) then
          some (.str (pjoin3 (repeatStr (segCount mn) (cs "../"))
            env.esmDir (path ++ cs ".d.ts")))
        else if objHasKey pkg (cs "types") &&
            (!(e && hasTypesFile env (pjoin env.esmDir path)) &&
             (c && hasTypesFile env (pjoin env.cjsDir path))) then
          some (.str (pjoin3 (repeatStr (segCount mn) (cs "../"))
            env.cjsDir (path ++ cs ".d.ts")))
        else none)) ∧
    (mode = Mode.production →
      objGet (generateProxyPackageJson env pkg c e mn path mode)
        (cs "module") =
        (if e then
          some (.str (pjoin3 (repeatStr (segCount mn) (cs "../"))
            env.esmDir (path ++
              getActualFileExtension env (pjoin env.esmDir path) false)))
        else none) ∧
      objGet (generateProxyPackageJson env pkg c e mn path mode) (cs "main") =
        (if c then
          some (.str (pjoin3 (repeatStr (segCount mn) (cs "../"))
            env.cjsDir (path ++
              getActualFileExtension env (pjoin env.cjsDir path) false)))
        else none) ∧
      objGet (generateProxyPackageJson env pkg c e mn path mode)
        (cs "types") =
        (if c && (objHasKey pkg (cs "types") &&
            hasTypesFile env (pjoin env.cjsDir path)) then
          some (.str (pjoin3 (repeatStr (segCount mn) (cs "../"))
            env.cjsDir (path ++ cs ".d.ts")))
        else if e && (objHasKey pkg (cs "types") &&
            hasTypesFile env (pjoin env.esmDir path)) then
          some (.str (pjoin3 (repeatStr (segCount mn) (cs "../"))
            env.esmDir (path ++ cs ".d.ts")))
        else none)) ∧
    (∀ p : Str × Str, (proxyEntry p).1 = dropSuffixIf p.1 (cs "/index")) ∧
    (∀ pf : List (Str × Str),
      ((pf.map proxyEntry).filter
        (fun q => q.1 ≠ cs "index")).Pairwise (fun a b => a.1 ≠ b.1) →
      getProxyFolders pf =
        (pf.map proxyEntry).filter (fun q => q.1 ≠ cs "index")) := by
  have hfolders : ∀ pf : List (Str × Str),
      ((pf.map proxyEntry).filter
        (fun q => q.1 ≠ cs "index")).Pairwise (fun a b => a.1 ≠ b.1) →
      getProxyFolders pf =
        (pf.map proxyEntry).filter (fun q => q.1 ≠ cs "index") := by
    intro pf hnodup
    unfold getProxyFolders
    rw [foldl_objSet_fresh _ [] hnodup (fun p _ => rfl)]
    rw [List.nil_append]
  cases mode with
  | development =>
    rw [genProxy_development_shape]
    refine ⟨⟨?_, ?_, ?_⟩, ?_, fun _ => ⟨?_, ?_, ?_⟩,
      fun h => absurd h (by decide), fun h => absurd h (by decide),
      fun p => rfl, hfolders⟩
    · rw [objGet_condSet_ne _ _ _ _ _ (by decide),
          objGet_objSet_ne _ _ _ _ (by decide),
          objGet_objSet_ne _ _ _ _ (by decide)]
      rfl
    · rw [objGet_condSet_ne _ _ _ _ _ (by decide),
          objGet_objSet_ne _ _ _ _ (by decide),
          objGet_objSet_ne _ _ _ _ (by decide)]
      rfl
    · rw [objGet_condSet_ne _ _ _ _ _ (by decide),
          objGet_objSet_ne _ _ _ _ (by decide),
          objGet_objSet_ne _ _ _ _ (by decide)]
      rfl
    · intro k hk
      rcases objHasKey_condSet_or _ _ _ _ _ hk with h|hk
      · exact Or.inr (Or.inr (Or.inr (Or.inr (Or.inr h))))
      rcases objHasKey_objSet_or _ _ _ _ hk with h|hk
      · exact Or.inr (Or.inr (Or.inr (Or.inr (Or.inl h))))
      rcases objHasKey_objSet_or _ _ _ _ hk with h|hk
      · exact Or.inr (Or.inr (Or.inr (Or.inl h)))
      rcases proxyBase_keys pkg mn k hk with h|h|h
      · exact Or.inl h
      · exact Or.inr (Or.inl h)
      · exact Or.inr (Or.inr (Or.inl h))
    · rw [objGet_condSet_ne _ _ _ _ _ (by decide),
          objGet_objSet_ne _ _ _ _ (by decide),
          objGet_objSet_self]
    · rw [objGet_condSet_ne _ _ _ _ _ (by decide), objGet_objSet_self]
    · cases ht : objHasKey pkg (cs "types")
      · rw [condSet_false_eq,
            objGet_objSet_ne _ _ _ _ (by decide),
            objGet_objSet_ne _ _ _ _ (by decide)]
        rfl
      · rw [objGet_condSet_true]
        rfl
  | productionTypes =>
    rw [genProxy_productionTypes_shape]
    refine ⟨⟨?_, ?_, ?_⟩, ?_, fun h => absurd h (by decide),
      fun _ => ⟨?_, ?_, ?_⟩, fun h => absurd h (by decide),
      fun p => rfl, hfolders⟩
    · rw [objGet_condSet_ne _ _ _ _ _ (by decide),
          objGet_condSet_ne _ _ _ _ _ (by decide),
          objGet_condSet_ne _ _ _ _ _ (by decide),
          objGet_condSet_ne _ _ _ _ _ (by decide)]
      rfl
    · rw [objGet_condSet_ne _ _ _ _ _ (by decide),
          objGet_condSet_ne _ _ _ _ _ (by decide),
          objGet_condSet_ne _ _ _ _ _ (by decide),
          objGet_condSet_ne _ _ _ _ _ (by decide)]
      rfl
    · rw [objGet_condSet_ne _ _ _ _ _ (by decide),
          objGet_condSet_ne _ _ _ _ _ (by decide),
          objGet_condSet_ne _ _ _ _ _ (by decide),
          objGet_condSet_ne _ _ _ _ _ (by decide)]
      rfl
    · intro k hk
      rcases objHasKey_condSet_or _ _ _ _ _ hk with h|hk
      · exact Or.inr (Or.inr (Or.inr (Or.inr (Or.inr h))))
      rcases objHasKey_condSet_or _ _ _ _ _ hk with h|hk
      · exact Or.inr (Or.inr (Or.inr (Or.inr (Or.inr h))))
      rcases objHasKey_condSet_or _ _ _ _ _ hk with h|hk
      · exact Or.inr (Or.inr (Or.inr (Or.inr (Or.inl h))))
      rcases objHasKey_condSet_or _ _ _ _ _ hk with h|hk
      · exact Or.inr (Or.inr (Or.inr (Or.inl h)))
      rcases proxyBase_keys pkg mn k hk with h|h|h
      · exact Or.inl h
      · exact Or.inr (Or.inl h)
      · exact Or.inr (Or.inr (Or.inl h))
    · rw [objGet_condSet_ne _ _ _ _ _ (by decide),
          objGet_condSet_ne _ _ _ _ _ (by decide),
          objGet_condSet_ne _ _ _ _ _ (by decide)]
      cases hc : c
      · rw [condSet_false_eq]
        rfl
      · rw [objGet_condSet_true]
        rfl
    · rw [objGet_condSet_ne _ _ _ _ _ (by decide),
          objGet_condSet_ne _ _ _ _ _ (by decide)]
      cases he : e
      · rw [condSet_false_eq,
            objGet_condSet_ne _ _ _ _ _ (by decide)]
        rfl
      · rw [objGet_condSet_true]
        rfl
    · cases hb1 : (objHasKey pkg (cs "types") && (e &&
          hasTypesFile env (pjoin env.esmDir path)))
      · rw [condSet_false_eq]
        cases hb2 : (objHasKey pkg (cs "types") &&
            (!(e && hasTypesFile env (pjoin env.esmDir path)) &&
             (c && hasTypesFile env (pjoin env.cjsDir path))))
        · rw [condSet_false_eq,
              objGet_condSet_ne _ _ _ _ _ (by decide),
              objGet_condSet_ne _ _ _ _ _ (by decide)]
          rfl
        · rw [objGet_condSet_true]
          rfl
      · rw [objGet_condSet_true]
        rfl
  | production =>
    rw [genProxy_production_shape]
    refine ⟨⟨?_, ?_, ?_⟩, ?_, fun h => absurd h (by decide),
      fun h => absurd h (by decide), fun _ => ⟨?_, ?_, ?_⟩,
      fun p => rfl, hfolders⟩
    · rw [objGet_condSet_ne _ _ _ _ _ (by decide),
          objGet_condSet_ne _ _ _ _ _ (by decide),
          objGet_condSet_ne _ _ _ _ _ (by decide),
          objGet_condSet_ne _ _ _ _ _ (by decide)]
      rfl
    · rw [objGet_condSet_ne _ _ _ _ _ (by decide),
          objGet_condSet_ne _ _ _ _ _ (by decide),
          objGet_condSet_ne _ _ _ _ _ (by decide),
          objGet_condSet_ne _ _ _ _ _ (by decide)]
      rfl
    · rw [objGet_condSet_ne _ _ _ _ _ (by decide),
          objGet_condSet_ne _ _ _ _ _ (by decide),
          objGet_condSet_ne _ _ _ _ _ (by decide),
          objGet_condSet_ne _ _ _ _ _ (by decide)]
      rfl
    · intro k hk
      rcases objHasKey_condSet_or _ _ _ _ _ hk with h|hk
      · exact Or.inr (Or.inr (Or.inr (Or.inr (Or.inr h))))
      rcases objHasKey_condSet_or _ _ _ _ _ hk with h|hk
      · exact Or.inr (Or.inr (Or.inr (Or.inl h)))
      rcases objHasKey_condSet_or _ _ _ _ _ hk with h|hk
      · exact Or.inr (Or.inr (Or.inr (Or.inr (Or.inr h))))
      rcases objHasKey_condSet_or _ _ _ _ _ hk with h|hk
      · exact Or.inr (Or.inr (Or.inr (Or.inr (Or.inl h))))
      rcases proxyBase_keys pkg mn k hk with h|h|h
      · exact Or.inl h
      · exact Or.inr (Or.inl h)
      · exact Or.inr (Or.inr (Or.inl h))
    · rw [objGet_condSet_ne _ _ _ _ _ (by decide),
          objGet_condSet_ne _ _ _ _ _ (by decide),
          objGet_condSet_ne _ _ _ _ _ (by decide)]
      cases he : e
      · rw [condSet_false_eq]
        rfl
      · rw [objGet_condSet_true]
        rfl
    · rw [objGet_condSet_ne _ _ _ _ _ (by decide)]
      cases hc : c
      · rw [condSet_false_eq,
            objGet_condSet_ne _ _ _ _ _ (by decide),
            objGet_condSet_ne _ _ _ _ _ (by decide)]
        rfl
      · rw [objGet_condSet_true]
        rfl
    · cases hb1 : (c && (objHasKey pkg (cs "types") &&
          hasTypesFile env (pjoin env.cjsDir path)))
      · rw [condSet_false_eq,
            objGet_condSet_ne _ _ _ _ _ (by decide)]
        cases hb2 : (e && (objHasKey pkg (cs "types") &&
            hasTypesFile env (pjoin env.esmDir path)))
        · rw [condSet_false_eq,
              objGet_condSet_ne _ _ _ _ _ (by decide)]
          rfl
        · rw [objGet_condSet_true]
          rfl
      · rw [objGet_condSet_true]
        rfl

/-- Witness: the C8 field shape at a concrete submodule `sub` of a
package with both formats built. -/
theorem c8_submodule_manifest_fields_witness :
    objGet (generateProxyPackageJson c8Env c8Pkg true true (cs "sub")
      (cs "sub") Mode.production) (cs "name") =
      some (.str (cs "x/sub")) ∧
    objGet (generateProxyPackageJson c8Env c8Pkg true true (cs "sub")
      (cs "sub") Mode.production) (cs "private") = some (.bool true) ∧
    objGet (generateProxyPackageJson c8Env c8Pkg true true (cs "sub")
      (cs "sub") Mode.production) (cs "sideEffects") =
      some (.bool false) ∧
    objGet (generateProxyPackageJson c8Env c8Pkg true true (cs "sub")
      (cs "sub") Mode.production) (cs "main") =
      some (.str (cs "../cjs/sub.cjs")) ∧
    objGet (generateProxyPackageJson c8Env c8Pkg true true (cs "sub")
      (cs "sub") Mode.production) (cs "module") =
      some (.str (cs "../esm/sub.js")) ∧
    getProxyFolders [(cs "index", cs "pkg/src/index.ts"),
                     (cs "sub", cs "pkg/src/sub.ts")] =
      [(cs "sub", cs "sub")] := by
  have h := c8_submodule_manifest_fields c8Env c8Pkg true true (cs "sub") (cs "sub")
    Mode.production
  refine ⟨?_, h.1.2.1, h.1.2.2, ?_, ?_, ?_⟩
  · rw [h.1.1]
    rfl
  · rw [(h.2.2.2.2.1 rfl).2.1]
    rfl
  · rw [(h.2.2.2.2.1 rfl).1]
    rfl
  · rw [h.2.2.2.2.2.2 [(cs "index", cs "pkg/src/index.ts"),
      (cs "sub", cs "pkg/src/sub.ts")] (by decide)]
    rfl


/-! ## Orchestrated build failure handling -/

/-- C9: whenever the production build fails, the outer catch forces
the manifest back to development mode before rethrowing (when the
revert write succeeds); the revert outcome never changes the
propagated error (non-masking); the tsup loop wraps the first failing
format's message as a `PackageError`; a bundler failure after the
earlier steps succeed propagates exactly that wrapped error with the
manifest reverted to development; and a fully successful run ends in
production mode. -/
theorem c9_build_failure_reverts_manifest (steps : BuildSteps) (m0 : Mode) :
    (∀ e : ModelError, (buildCommandModel steps m0).2 = .error e →
      steps.writeDevelopment = .ok () →
      (buildCommandModel steps m0).1 = Mode.development) ∧
    (∀ wd : Except ModelError Unit,
      (buildCommandModel
        { steps with writeDevelopment := wd } m0).2 =
        (buildCommandModel steps m0).2) ∧
    (∀ (pre : List (Str × Except Str Unit)) (fmt msg : Str)
      (rest : List (Str × Except Str Unit)),
      steps.bundler = pre ++ (fmt, .error msg) :: rest →
      (∀ q ∈ pre, q.2 = .ok ()) →
      bundleFormats steps.bundler =
        .error (.package
          (cs "Failed to build " ++ fmt ++ cs " format: " ++ msg))) ∧
    (∀ e : ModelError, steps.clean = .ok () → steps.analyze = .ok () →
      steps.typesStep = .ok () → bundleFormats steps.bundler = .error e →
      (buildCommandModel steps m0).2 = .error e ∧
      (steps.writeDevelopment = .ok () →
        (buildCommandModel steps m0).1 = Mode.development)) ∧
    (steps.clean = .ok () → steps.analyze = .ok () →
      steps.typesStep = .ok () → bundleFormats steps.bundler = .ok () →
      steps.metadata = .ok () → steps.writeProduction = .ok () →
      buildCommandModel steps m0 = (Mode.production, .ok ())) := by
  obtain ⟨cl, an, ty, bu, me, wp, wd⟩ := steps
  refine ⟨?_, ?_, ?_, ?_, ?_⟩
  · intro e herr hwd
    simp only at hwd
    subst hwd
    simp only [buildCommandModel] at herr ⊢
    cases cl with
    | error e1 => rfl
    | ok u =>
      cases an with
      | error e1 => rfl
      | ok u =>
        cases ty with
        | error e1 => rfl
        | ok u =>
          cases hb : bundleFormats bu with
          | error e1 => rfl
          | ok u =>
            cases me with
            | error e1 => rfl
            | ok u =>
              cases wp with
              | error e1 => rfl
              | ok u => simp [hb] at herr
  · intro wd2
    simp only [buildCommandModel]
    cases cl <;> cases an <;> cases ty <;> cases hb : bundleFormats bu <;>
      cases me <;> cases wp <;> cases wd2 <;> cases wd <;> simp [hb]
  · intro pre fmt msg rest hbu hpre
    simp only at hbu
    subst hbu
    induction pre with
    | nil => rfl
    | cons q t ih =>
      have hq := hpre q (by simp)
      cases q with
      | mk f r =>
        simp only at hq
        subst hq
        rw [List.cons_append]
        show bundleFormats ((f, Except.ok ()) :: (t ++ (fmt, Except.error msg) :: rest)) = _
        rw [bundleFormats]
        exact ih (fun p hp => hpre p (by simp [hp]))
  · intro e hcl han hty hb
    simp only at hcl han hty
    subst hcl
    subst han
    subst hty
    constructor
    · simp only [buildCommandModel]
      rw [hb]
    · intro hwd
      simp only at hwd
      subst hwd
      simp only [buildCommandModel]
      rw [hb]
  · intro hcl han hty hb hme hwp
    simp only at hcl han hty hme hwp
    subst hcl
    subst han
    subst hty
    subst hme
    subst hwp
    simp only [buildCommandModel]
    rw [hb]

/-- Witness: a failing `esm` bundler invocation leaves the manifest in
development mode and rethrows the wrapped bundler error. -/
theorem c9_build_failure_reverts_manifest_witness :
    buildCommandModel c9Steps Mode.production =
      (Mode.development, .error (.package
        (cs "Failed to build " ++ cs "esm" ++ cs " format: " ++
          cs "boom"))) := by
  have h := c9_build_failure_reverts_manifest c9Steps Mode.production
  have hb := h.2.2.1 [(cs "cjs", Except.ok ())] (cs "esm") (cs "boom") []
    rfl (fun q hq => by
      simp at hq
      rw [hq])
  have h4 := h.2.2.2.1 _ rfl rfl rfl hb
  exact Prod.ext (h4.2 rfl) h4.1

end Libsync
